import Mathlib

/-!
Verification of the DEER fixed-point iteration engine (deer/deer_iter.py) and
the backward-Euler inverse-linear operator (deer/fsolve_idae.py).

The engine is embedded shallowly: jax arrays of shape (nsamples, ny) become
functions `Fin ns → Fin ny → α`, python lists stay `List`, and the scalar
dtype is abstracted by a `ScalarOps` record so that the same engine text can
be instantiated with exact rationals (`ratOps`) and with an IEEE-style
carrier (`FQ`) that has NaN and infinities, mirroring jnp float semantics
for the clipping-guard claims.  `jax.lax.while_loop` is embedded as a
fuel-indexed loop; the fuel `max_iter` is provably sufficient because the
loop condition `err > tol AND iiter < max_iter` fails once the counter
reaches the budget.
-/

/-- The dtypes distinguished by deer_iteration_helper's tolerance selection
(line 102 of deer_iter.py): float64 gets 1e-7, everything else 1e-4. -/
inductive DType where
  | float32
  | float64
  | float16
deriving DecidableEq

/-- Tolerance selection of deer_iteration_helper line 102:
tol = 1e-7 if dtype == jnp.float64 else 1e-4. -/
def tolQ (dt : DType) : ℚ :=
  if dt = DType.float64 then 1 / 10 ^ 7 else 1 / 10 ^ 4

/-- The scalar operations the engine uses, abstracting the jnp dtype.
`ltb a b` is the boolean strict comparison `a < b` (so `err > tol` is
`ltb tol err`); on an IEEE carrier any comparison with NaN is false.
`maxv`/`minv` are jnp maximum/minimum (NaN-propagating), used by the
error reduction jnp.max and by jnp.clip. -/
structure ScalarOps (α : Type) where
  add : α → α → α
  sub : α → α → α
  mul : α → α → α
  neg : α → α
  absv : α → α
  maxv : α → α → α
  minv : α → α → α
  ltb : α → α → Bool
  isnan : α → Bool
  ofQ : ℚ → α

/-- Exact-rational instantiation of the scalar operations. -/
def ratOps : ScalarOps ℚ where
  add := (· + ·)
  sub := (· - ·)
  mul := (· * ·)
  neg := Neg.neg
  absv := fun a => |a|
  maxv := max
  minv := min
  ltb := fun a b => decide (a < b)
  isnan := fun _ => false
  ofQ := id

/-- A state vector of dimension ny: one sample's worth of y. -/
abbrev VecT (α : Type) (ny : ℕ) := Fin ny → α

/-- An ny × ny per-sample matrix (one Jacobian block at one sample). -/
abbrev MatT (α : Type) (ny : ℕ) := Fin ny → Fin ny → α

/-- A sequence: jnp array of shape (nsamples, ny). -/
abbrev SeqT (α : Type) (ns ny : ℕ) := Fin ns → VecT α ny

/-- A per-sample stack of matrices: jnp array of shape (nsamples, ny, ny). -/
abbrev MatSeq (α : Type) (ns ny : ℕ) := Fin ns → MatT α ny

section EngineOps

variable {α : Type} (ops : ScalarOps α)

/-- Sum of a list of scalars, as python sum / jnp broadcasting add produce it. -/
def sumO (l : List α) : α := l.foldr ops.add (ops.ofQ 0)

/-- Elementwise sum of two (nsamples, ny) arrays. -/
def seqAdd {ns ny : ℕ} (a b : SeqT α ns ny) : SeqT α ns ny :=
  fun i j => ops.add (a i j) (b i j)

/-- Elementwise difference of two (nsamples, ny) arrays. -/
def seqSub {ns ny : ℕ} (a b : SeqT α ns ny) : SeqT α ns ny :=
  fun i j => ops.sub (a i j) (b i j)

/-- Matrix–vector product of one ny × ny block with one sample vector,
the per-sample content of einsum "...ij,...j->...i". -/
def matVecO {ny : ℕ} (m : MatT α ny) (v : VecT α ny) : VecT α ny :=
  fun r => sumO ops ((List.finRange ny).map (fun c => ops.mul (m r c) (v c)))

/-- einsum "...ij,...j->...i" (deer_iter.py line 114): batched
matrix–vector product over the sample axis. -/
def einsumO {ns ny : ℕ} (g : MatSeq α ns ny) (y : SeqT α ns ny) : SeqT α ns ny :=
  fun i => matVecO ops (g i) (y i)

/-- Sum of a list of (nsamples, ny) arrays (python sum of jnp arrays). -/
def seqSum {ns ny : ℕ} (l : List (SeqT α ns ny)) : SeqT α ns ny :=
  fun i j => sumO ops (l.map (fun s => s i j))

/-- Maximum of a nonempty list (jnp.max reduction; NaN-propagating through
`maxv`).  The default on [] never occurs for nonempty arrays. -/
def listMax (l : List α) : α :=
  match l with
  | [] => ops.ofQ 0
  | a :: t => t.foldl ops.maxv a

/-- jnp.max(jnp.abs(a)) over all entries of an (nsamples, ny) array. -/
def maxAbsSeq {ns ny : ℕ} (a : SeqT α ns ny) : α :=
  listMax ops (((List.finRange ns).map
    (fun i => (List.finRange ny).map (fun j => ops.absv (a i j)))).flatten)

/-- The all-zero ny × ny matrix (jnp.zeros of line 134). -/
def zeroMat {ny : ℕ} : MatT α ny := fun _ _ => ops.ofQ 0

/-- The all-zero (nsamples, ny, ny) stack. -/
def zeroMatSeq {ns ny : ℕ} : MatSeq α ns ny := fun _ => zeroMat ops

/-- jnp.clip(x, -1e8, 1e8) followed by jnp.where(jnp.isnan(x), 0.0, x)
(deer_iter.py lines 119-121), applied entrywise.  clip is
minimum(maximum(x, -1e8), 1e8); both propagate NaN, so a NaN entry
survives the clamp and is then replaced by 0 by the where. -/
def clipSeq {ns ny : ℕ} (y : SeqT α ns ny) : SeqT α ns ny :=
  fun i j =>
    let v := ops.minv (ops.maxv (y i j) (ops.ofQ (-(10 ^ 8)))) (ops.ofQ (10 ^ 8))
    if ops.isnan v then ops.ofQ 0 else v

end EngineOps

/-- The collaborator functions and non-loop-varying inputs of
deer_iteration, bundled: inv_lin, func (per sample), its forward-mode
Jacobian, shifter_func, p_num, params, xinput, inv_lin_params,
shifter_func_params.  `jacfunc` embeds jax.jacfwd(func, argnums=0): for
each element of the shifted-argument list it yields the ny × ny partial
Jacobian of func at that point (for a jax-traceable func this list has the
same length as the argument list). -/
structure DeerInst (α : Type) (ns ny : ℕ) (X P IL SF : Type) where
  invLin : List (MatSeq α ns ny) → SeqT α ns ny → IL → SeqT α ns ny
  func : List (VecT α ny) → X → P → VecT α ny
  jacfunc : List (VecT α ny) → X → P → List (MatT α ny)
  shifterFunc : SeqT α ns ny → SF → List (SeqT α ns ny)
  p_num : ℕ
  params : P
  xinput : Fin ns → X
  ilp : IL
  sfp : SF

section Engine

variable {α : Type} (ops : ScalarOps α) {ns ny : ℕ} {X P IL SF : Type}

/-- func2 = jax.vmap(func, in_axes=(0, 0, None)) (deer_iter.py line 98)
applied to the shifted sequences: per sample i, func sees the i-th row of
every shifted sequence and the i-th sample of xinput. -/
def vmapF (I : DeerInst α ns ny X P IL SF) (ytparams : List (SeqT α ns ny)) :
    SeqT α ns ny :=
  fun i => I.func (ytparams.map (fun s => s i)) (I.xinput i) I.params

/-- jacfunc = jax.vmap(jax.jacfwd(func, argnums=0), in_axes=(0, 0, None))
(line 97): a list, one (nsamples, ny, ny) stack per shifted argument.  Its
length is the structural length of the input list, as for jax.jacfwd. -/
def vmapJacF (I : DeerInst α ns ny X P IL SF) (ytparams : List (SeqT α ns ny)) :
    List (MatSeq α ns ny) :=
  (List.range ytparams.length).map
    (fun k => fun i =>
      (I.jacfunc (ytparams.map (fun s => s i)) (I.xinput i) I.params).getD k (zeroMat ops))

/-- gts = [-gt for gt in jacfunc(ytparams, xinput, params)] (line 111):
the negated per-sample Jacobians at the current shift set. -/
def gtsOf (I : DeerInst α ns ny X P IL SF) (yt : SeqT α ns ny) :
    List (MatSeq α ns ny) :=
  (vmapJacF ops I (I.shifterFunc yt I.sfp)).map
    (fun g => fun i r c => ops.neg (g i r c))

/-- rhs = func2(ytparams, xinput, params)
      + sum(einsum("...ij,...j->...i", gt, ytp) for gt, ytp in zip(gts, ytparams))
(lines 113-114).  The zip is at the python-list level and silently
truncates to the shorter list. -/
def rhsOf (I : DeerInst α ns ny X P IL SF) (yt : SeqT α ns ny) : SeqT α ns ny :=
  let ytparams := I.shifterFunc yt I.sfp
  seqAdd ops (vmapF I ytparams)
    (seqSum ops (List.zipWith (einsumO ops) (gtsOf ops I yt) ytparams))

/-- yt_next = inv_lin(gts, rhs, inv_lin_params) (line 115), followed by the
optional clipping guard (lines 118-121). -/
def nextEstimate (I : DeerInst α ns ny X P IL SF) (clip : Bool)
    (yt : SeqT α ns ny) : SeqT α ns ny :=
  let y := I.invLin (gtsOf ops I yt) (rhsOf ops I yt) I.ilp
  if clip then clipSeq ops y else y

/-- The carry of the jax.lax.while_loop: (err, yt, gts, iiter). -/
structure DeerSt (α : Type) (ns ny : ℕ) where
  err : α
  yt : SeqT α ns ny
  gts : List (MatSeq α ns ny)
  iiter : ℕ

/-- iter_func (lines 105-127): one loop body step.  The error is
jnp.max(jnp.abs(yt_next - yt)), computed from the (possibly clipped) next
estimate. -/
def iterFunc (I : DeerInst α ns ny X P IL SF) (clip : Bool)
    (s : DeerSt α ns ny) : DeerSt α ns ny :=
  let ynext := nextEstimate ops I clip s.yt
  { err := maxAbsSeq ops (seqSub ops ynext s.yt)
    yt := ynext
    gts := gtsOf ops I s.yt
    iiter := s.iiter + 1 }

/-- cond_func (lines 129-131): continue while err > tol AND iiter < max_iter. -/
def condFunc (dt : DType) (max_iter : ℕ) (s : DeerSt α ns ny) : Bool :=
  ops.ltb (ops.ofQ (tolQ dt)) s.err && decide (s.iiter < max_iter)

/-- Fuel-indexed while loop; with fuel = max_iter it computes exactly
jax.lax.while_loop(cond_func, iter_func, init), because cond_func forces
iiter < max_iter and iter_func increments iiter. -/
def whileLoop {σ : Type} (c : σ → Bool) (b : σ → σ) : ℕ → σ → σ
  | 0, s => s
  | n + 1, s => if c s then whileLoop c b n (b s) else s

/-- deer_iteration_helper (lines 83-139): runs the while loop from
(err = 1e10, yt = yinit_guess, gts = p_num zero stacks, iiter = 0) and
returns the final carry.  `dt` is the dtype of yinit_guess. -/
def deer_iteration_helper (I : DeerInst α ns ny X P IL SF) (dt : DType)
    (yinit_guess : SeqT α ns ny) (max_iter : ℕ) (clip : Bool) : DeerSt α ns ny :=
  whileLoop (condFunc ops dt max_iter) (iterFunc ops I clip) max_iter
    { err := ops.ofQ (10 ^ 10)
      yt := yinit_guess
      gts := List.replicate I.p_num (zeroMatSeq ops)
      iiter := 0 }

/-- deer_iteration (lines 13-80): the converged/terminated output sequence. -/
def deer_iteration (I : DeerInst α ns ny X P IL SF) (dt : DType)
    (yinit_guess : SeqT α ns ny) (max_iter : ℕ) (clip : Bool) : SeqT α ns ny :=
  (deer_iteration_helper ops I dt yinit_guess max_iter clip).yt

end Engine

section LoopLemmas

variable {α : Type} {ops : ScalarOps α} {ns ny : ℕ} {X P IL SF : Type}

lemma whileLoop_zero {σ : Type} (c : σ → Bool) (b : σ → σ) (s : σ) :
    whileLoop c b 0 s = s := rfl

lemma whileLoop_succ {σ : Type} (c : σ → Bool) (b : σ → σ) (n : ℕ) (s : σ) :
    whileLoop c b (n + 1) s = if c s then whileLoop c b n (b s) else s := rfl

lemma iterFunc_iiter (I : DeerInst α ns ny X P IL SF) (clip : Bool)
    (s : DeerSt α ns ny) : (iterFunc ops I clip s).iiter = s.iiter + 1 := rfl

/-- After running the fueled loop with enough budget left, the loop
condition is false: the loop exited for real, not because fuel ran out. -/
lemma whileLoop_cond_false (dt : DType) (max_iter : ℕ)
    (b : DeerSt α ns ny → DeerSt α ns ny) (hb : ∀ s, s.iiter < (b s).iiter) :
    ∀ (n : ℕ) (s : DeerSt α ns ny), max_iter ≤ s.iiter + n →
      condFunc ops dt max_iter (whileLoop (condFunc ops dt max_iter) b n s) = false := by
  intro n
  induction n with
  | zero =>
    intro s h
    have hlt : ¬ s.iiter < max_iter := by omega
    simp [whileLoop_zero, condFunc, hlt]
  | succ n ih =>
    intro s h
    rcases hcc : condFunc ops dt max_iter s with _ | _
    · simp [whileLoop_succ, hcc]
    · rw [whileLoop_succ, if_pos hcc]
      exact ih (b s) (by have := hb s; omega)

lemma whileLoop_iiter_le (c : DeerSt α ns ny → Bool)
    (b : DeerSt α ns ny → DeerSt α ns ny) (hb : ∀ s, (b s).iiter = s.iiter + 1) :
    ∀ (n : ℕ) (s : DeerSt α ns ny), (whileLoop c b n s).iiter ≤ s.iiter + n := by
  intro n
  induction n with
  | zero => intro s; simp [whileLoop_zero]
  | succ n ih =>
    intro s
    rcases hcc : c s with _ | _
    · simp [whileLoop_succ, hcc]
    · rw [whileLoop_succ, if_pos hcc]
      have h2 := ih (b s)
      have h3 := hb s
      omega

/-- While the condition keeps holding, the fueled loop is plain iteration. -/
lemma whileLoop_eq_iterate {σ : Type} (c : σ → Bool) (b : σ → σ) :
    ∀ (n : ℕ) (s : σ), (∀ k, k < n → c (b^[k] s) = true) →
      whileLoop c b n s = b^[n] s := by
  intro n
  induction n with
  | zero => intro s _; rfl
  | succ n ih =>
    intro s h
    have h0 : c s = true := by simpa using h 0 (Nat.succ_pos n)
    rw [whileLoop_succ, if_pos h0, Function.iterate_succ_apply]
    exact ih (b s) (fun k hk => by
      have := h (k + 1) (by omega)
      rwa [Function.iterate_succ_apply] at this)

lemma iterate_iterFunc_iiter (I : DeerInst α ns ny X P IL SF) (clip : Bool) :
    ∀ (n : ℕ) (s : DeerSt α ns ny),
      ((iterFunc ops I clip)^[n] s).iiter = s.iiter + n := by
  intro n
  induction n with
  | zero => intro s; simp
  | succ n ih =>
    intro s
    rw [Function.iterate_succ_apply]
    have := ih (iterFunc ops I clip s)
    simp only [this, iterFunc_iiter]
    omega

end LoopLemmas

/-- C10: with max_iter = 0 the loop body never runs (counter starts at 0 and
the condition requires counter < max_iter): deer_iteration returns
yinit_guess unchanged, the retained Jacobian bundle is the initial all-zero
bundle of p_num blocks, and the counter stays 0. -/
theorem deer_iteration_maxiter_zero {α : Type} (ops : ScalarOps α) {ns ny : ℕ}
    {X P IL SF : Type} (I : DeerInst α ns ny X P IL SF) (dt : DType)
    (yinit_guess : SeqT α ns ny) (clip : Bool) :
    deer_iteration ops I dt yinit_guess 0 clip = yinit_guess ∧
    (deer_iteration_helper ops I dt yinit_guess 0 clip).gts =
      List.replicate I.p_num (zeroMatSeq ops) ∧
    (deer_iteration_helper ops I dt yinit_guess 0 clip).iiter = 0 :=
  ⟨rfl, rfl, rfl⟩

/-- C4: the tolerance is selected from the dtype (1e-4 for float32, 1e-7 for
float64), and the loop never stops by convergence while the error exceeds
that tolerance: if the final error is still above tolerance, the loop must
have exhausted its entire budget. -/
theorem tolerance_selection {α : Type} (ops : ScalarOps α) {ns ny : ℕ}
    {X P IL SF : Type} (I : DeerInst α ns ny X P IL SF) (dt : DType)
    (yinit_guess : SeqT α ns ny) (max_iter : ℕ) (clip : Bool)
    (h : ops.ltb (ops.ofQ (tolQ dt))
      (deer_iteration_helper ops I dt yinit_guess max_iter clip).err = true) :
    (tolQ DType.float32 = 1 / 10 ^ 4 ∧ tolQ DType.float64 = 1 / 10 ^ 7) ∧
    (deer_iteration_helper ops I dt yinit_guess max_iter clip).iiter = max_iter := by
  refine ⟨⟨by simp [tolQ], by simp [tolQ]⟩, ?_⟩
  have hfalse := @whileLoop_cond_false α ops ns ny dt max_iter
    (iterFunc ops I clip) (fun s => by simp [iterFunc_iiter]) max_iter
    { err := ops.ofQ (10 ^ 10), yt := yinit_guess,
      gts := List.replicate I.p_num (zeroMatSeq ops), iiter := 0 }
    (by omega)
  have hle := whileLoop_iiter_le (condFunc ops dt max_iter)
    (iterFunc ops I clip) (fun s => rfl) max_iter
    { err := ops.ofQ (10 ^ 10), yt := yinit_guess,
      gts := List.replicate I.p_num (zeroMatSeq ops), iiter := 0 }
  rw [show whileLoop (condFunc ops dt max_iter) (iterFunc ops I clip) max_iter
      { err := ops.ofQ (10 ^ 10), yt := yinit_guess,
        gts := List.replicate I.p_num (zeroMatSeq ops), iiter := 0 } =
      deer_iteration_helper ops I dt yinit_guess max_iter clip from rfl] at hfalse hle
  rw [condFunc, Bool.and_eq_false_iff] at hfalse
  rcases hfalse with hfalse | hfalse
  · rw [h] at hfalse; exact absurd hfalse (by simp)
  · simp only [decide_eq_false_iff_not, Nat.not_lt] at hfalse
    have hle2 : (deer_iteration_helper ops I dt yinit_guess max_iter clip).iiter ≤
        0 + max_iter := hle
    omega

/-- C2: if every executed iteration leaves the error above the tolerance
(a never-converging func/inv_lin pair), the loop performs exactly max_iter
iterations — the final state is the max_iter-fold iterate of the body from
the initial carry — and returns the last estimate (totality of the
embedding; no exception path exists). -/
theorem iteration_budget {α : Type} (ops : ScalarOps α) {ns ny : ℕ}
    {X P IL SF : Type} (I : DeerInst α ns ny X P IL SF) (dt : DType)
    (yinit_guess : SeqT α ns ny) (max_iter : ℕ) (clip : Bool)
    (h0 : ops.ltb (ops.ofQ (tolQ dt)) (ops.ofQ (10 ^ 10)) = true)
    (h1 : ∀ s : DeerSt α ns ny,
      ops.ltb (ops.ofQ (tolQ dt)) (iterFunc ops I clip s).err = true) :
    deer_iteration_helper ops I dt yinit_guess max_iter clip =
      (iterFunc ops I clip)^[max_iter]
        { err := ops.ofQ (10 ^ 10), yt := yinit_guess,
          gts := List.replicate I.p_num (zeroMatSeq ops), iiter := 0 } ∧
    (deer_iteration_helper ops I dt yinit_guess max_iter clip).iiter = max_iter := by
  have key : deer_iteration_helper ops I dt yinit_guess max_iter clip =
      (iterFunc ops I clip)^[max_iter]
        { err := ops.ofQ (10 ^ 10), yt := yinit_guess,
          gts := List.replicate I.p_num (zeroMatSeq ops), iiter := 0 } := by
    apply whileLoop_eq_iterate
    intro k hk
    rw [condFunc, Bool.and_eq_true]
    constructor
    · rcases k with _ | k
      · simpa using h0
      · rw [Function.iterate_succ_apply']
        exact h1 _
    · simp only [decide_eq_true_eq]
      rw [iterate_iterFunc_iiter]
      show 0 + k < max_iter
      omega
  refine ⟨key, ?_⟩
  rw [key, iterate_iterFunc_iiter]
  show 0 + max_iter = max_iter
  omega

section ScalarEval

/-- Reduction of the engine sum on a one-element list over exact rationals. -/
lemma sumO_singleton (x : ℚ) : sumO ratOps [x] = x := by
  simp [sumO, ratOps]

/-- Reduction of the per-sample matrix–vector product in dimension one. -/
lemma matVecO_scalar (m : MatT ℚ 1) (v : VecT ℚ 1) (r : Fin 1) :
    matVecO ratOps m v r = m r 0 * v 0 := by
  simp [matVecO, sumO, ratOps, List.finRange_succ]

/-- Reduction of the error norm jnp.max(jnp.abs(.)) on a 1 × 1 array. -/
lemma maxAbsSeq_scalar (a : SeqT ℚ 1 1) : maxAbsSeq ratOps a = |a 0 0| := by
  simp [maxAbsSeq, listMax, ratOps, List.finRange_succ]

end ScalarEval

/-- The two tolerance values reduce definitionally. -/
lemma tolQ_f32 : tolQ DType.float32 = 1 / 10 ^ 4 := rfl

/-- The float64 tolerance value. -/
lemma tolQ_f64 : tolQ DType.float64 = 1 / 10 ^ 7 := rfl

/-- A deliberately never-converging collaborator set for the budget claims:
func is z ↦ stop_gradient(z) + 1 (value z + 1, forward-mode Jacobian 0, as
jax.jacfwd produces through lax.stop_gradient), shifter_func is the
identity singleton, and inv_lin returns the rhs unchanged; every iteration
therefore moves the estimate up by exactly 1. -/
def divInst : DeerInst ℚ 1 1 Unit Unit Unit Unit where
  invLin := fun _ rhs _ => rhs
  func := fun zs _ _ => fun _ => zs.getD 0 (fun _ => 0) 0 + 1
  jacfunc := fun _ _ _ => [fun _ _ => 0]
  shifterFunc := fun y _ => [y]
  p_num := 1
  params := ()
  xinput := fun _ => ()
  ilp := ()
  sfp := ()

/-- Every iteration of the never-converging instance has error exactly 1. -/
lemma divInst_err (s : DeerSt ℚ 1 1) :
    (iterFunc ratOps divInst false s).err = 1 := by
  show maxAbsSeq ratOps
    (seqSub ratOps (nextEstimate ratOps divInst false s.yt) s.yt) = 1
  rw [maxAbsSeq_scalar]
  simp [seqSub, nextEstimate, rhsOf, gtsOf, vmapJacF, vmapF, seqAdd, seqSum,
    einsumO, matVecO, sumO, divInst, ratOps, zeroMat, List.range_succ,
    List.range_zero, List.finRange_succ, Function.comp]

/-- Witness for the iteration-budget theorem: the never-converging instance
with budget 5 exits with the counter equal to 5. -/
theorem iteration_budget_witness :
    (deer_iteration_helper ratOps divInst DType.float64 (fun _ _ => 0) 5
      false).iiter = 5 :=
  (iteration_budget ratOps divInst DType.float64 (fun _ _ => 0) 5 false
    (by simp only [ratOps, tolQ_f64]; norm_num)
    (fun s => by rw [divInst_err]; simp only [ratOps, tolQ_f64]; norm_num)).2

/-- One unfolding of the loop used by the tolerance witness: with budget 1
the helper performs exactly the first body step. -/
lemma helper_one_step_divInst :
    deer_iteration_helper ratOps divInst DType.float32 (fun _ _ => 0) 1 false =
      iterFunc ratOps divInst false
        { err := ratOps.ofQ (10 ^ 10), yt := fun _ _ => 0,
          gts := List.replicate divInst.p_num (zeroMatSeq ratOps), iiter := 0 } := by
  have hc : condFunc ratOps DType.float32 1
      { err := ratOps.ofQ (10 ^ 10), yt := (fun _ _ => 0 : SeqT ℚ 1 1),
        gts := List.replicate divInst.p_num (zeroMatSeq ratOps), iiter := 0 } = true := by
    simp only [condFunc, ratOps, tolQ_f32]
    norm_num
  rw [deer_iteration_helper, whileLoop_succ, if_pos hc, whileLoop_zero]

/-- Witness for the tolerance-selection theorem: a run whose final error 1
exceeds the float32 tolerance 1e-4 indeed used its whole budget. -/
theorem tolerance_selection_witness :
    (tolQ DType.float32 = 1 / 10 ^ 4 ∧ tolQ DType.float64 = 1 / 10 ^ 7) ∧
    (deer_iteration_helper ratOps divInst DType.float32 (fun _ _ => 0) 1
      false).iiter = 1 :=
  tolerance_selection ratOps divInst DType.float32 (fun _ _ => 0) 1 false
    (by rw [helper_one_step_divInst, divInst_err]
        simp only [ratOps, tolQ_f32]
        norm_num)

/-- The float16 tolerance value (any non-float64 dtype gets 1e-4). -/
lemma tolQ_f16 : tolQ DType.float16 = 1 / 10 ^ 4 := rfl

/-- An IEEE-style scalar carrier: rationals extended with NaN and both
infinities, modelling jnp float semantics at the precision-independent
level (exact arithmetic on finite values, NaN propagation through
arithmetic and reductions, NaN-false comparisons). -/
inductive FQ where
  | nan
  | inf
  | ninf
  | fin (q : ℚ)
deriving DecidableEq

/-- IEEE addition on the extended carrier. -/
def FQ.addF : FQ → FQ → FQ
  | nan, _ => nan
  | _, nan => nan
  | inf, ninf => nan
  | ninf, inf => nan
  | inf, _ => inf
  | _, inf => inf
  | ninf, _ => ninf
  | _, ninf => ninf
  | fin a, fin b => fin (a + b)

/-- IEEE negation. -/
def FQ.negF : FQ → FQ
  | nan => nan
  | inf => ninf
  | ninf => inf
  | fin q => fin (-q)

/-- IEEE subtraction. -/
def FQ.subF (a b : FQ) : FQ := FQ.addF a (FQ.negF b)

/-- IEEE multiplication (inf times zero is NaN). -/
def FQ.mulF : FQ → FQ → FQ
  | nan, _ => nan
  | _, nan => nan
  | inf, inf => inf
  | inf, ninf => ninf
  | ninf, inf => ninf
  | ninf, ninf => inf
  | inf, fin q => if q = 0 then nan else if 0 < q then inf else ninf
  | fin q, inf => if q = 0 then nan else if 0 < q then inf else ninf
  | ninf, fin q => if q = 0 then nan else if 0 < q then ninf else inf
  | fin q, ninf => if q = 0 then nan else if 0 < q then ninf else inf
  | fin a, fin b => fin (a * b)

/-- IEEE absolute value. -/
def FQ.absF : FQ → FQ
  | nan => nan
  | inf => inf
  | ninf => inf
  | fin q => fin |q|

/-- jnp.maximum / lax reduce-max combiner: NaN-propagating maximum. -/
def FQ.maxF : FQ → FQ → FQ
  | nan, _ => nan
  | _, nan => nan
  | inf, _ => inf
  | _, inf => inf
  | ninf, x => x
  | x, ninf => x
  | fin a, fin b => fin (max a b)

/-- jnp.minimum: NaN-propagating minimum. -/
def FQ.minF : FQ → FQ → FQ
  | nan, _ => nan
  | _, nan => nan
  | ninf, _ => ninf
  | _, ninf => ninf
  | inf, x => x
  | x, inf => x
  | fin a, fin b => fin (min a b)

/-- IEEE strict less-than: any comparison against NaN is false. -/
def FQ.ltbF : FQ → FQ → Bool
  | nan, _ => false
  | _, nan => false
  | _, ninf => false
  | ninf, _ => true
  | inf, _ => false
  | fin _, inf => true
  | fin a, fin b => decide (a < b)

/-- NaN test. -/
def FQ.isnanF : FQ → Bool
  | nan => true
  | _ => false

/-- The engine operations over the IEEE-style carrier. -/
def fqOps : ScalarOps FQ where
  add := FQ.addF
  sub := FQ.subF
  mul := FQ.mulF
  neg := FQ.negF
  absv := FQ.absF
  maxv := FQ.maxF
  minv := FQ.minF
  ltb := FQ.ltbF
  isnan := FQ.isnanF
  ofQ := FQ.fin

lemma FQ.maxF_nan_right (x : FQ) : FQ.maxF x FQ.nan = FQ.nan := by
  cases x <;> rfl

lemma FQ.maxF_nan_left (x : FQ) : FQ.maxF FQ.nan x = FQ.nan := by
  cases x <;> rfl

lemma FQ.addF_nan_left (x : FQ) : FQ.addF FQ.nan x = FQ.nan := by
  cases x <;> rfl

/-- A fold of the NaN-propagating maximum over a list containing NaN
(or started from NaN) is NaN. -/
lemma foldl_maxF_nan : ∀ (t : List FQ) (a : FQ), (a = FQ.nan ∨ FQ.nan ∈ t) →
    t.foldl FQ.maxF a = FQ.nan := by
  intro t
  induction t with
  | nil => intro a h; simpa using h
  | cons x t ih =>
    intro a h
    rcases h with h | h
    · subst h
      exact ih (FQ.maxF FQ.nan x) (Or.inl (FQ.maxF_nan_left x))
    · rcases List.mem_cons.mp h with h | h
      · subst h
        exact ih (FQ.maxF a FQ.nan) (Or.inl (FQ.maxF_nan_right a))
      · exact ih (FQ.maxF a x) (Or.inr h)

/-- jnp.max of a list containing a NaN is NaN. -/
lemma listMax_nan (l : List FQ) (h : FQ.nan ∈ l) : listMax fqOps l = FQ.nan := by
  cases l with
  | nil => simp at h
  | cons a t =>
    show t.foldl FQ.maxF a = FQ.nan
    rcases List.mem_cons.mp h with h | h
    · exact foldl_maxF_nan t a (Or.inl h.symm)
    · exact foldl_maxF_nan t a (Or.inr h)

lemma whileLoop_of_cond_false {σ : Type} (c : σ → Bool) (b : σ → σ) (n : ℕ)
    (s : σ) (h : c s = false) : whileLoop c b n s = s := by
  cases n with
  | zero => rfl
  | succ n => rw [whileLoop_succ, h]; simp

/-- Entrywise effect of the clipping guard: every output entry is a finite
value in [-1e8, 1e8] (NaN having been mapped to 0, infinities clamped). -/
lemma clipSeq_bounded {ns ny : ℕ} (y : SeqT FQ ns ny) (i : Fin ns) (j : Fin ny) :
    ∃ q : ℚ, clipSeq fqOps y i j = FQ.fin q ∧ -(10 ^ 8) ≤ q ∧ q ≤ 10 ^ 8 := by
  unfold clipSeq
  cases hy : y i j with
  | nan =>
    refine ⟨0, ?_, by norm_num, by norm_num⟩
    simp [hy, fqOps, FQ.maxF, FQ.minF, FQ.isnanF]
  | inf =>
    refine ⟨10 ^ 8, ?_, by norm_num, by norm_num⟩
    simp [hy, fqOps, FQ.maxF, FQ.minF, FQ.isnanF]
  | ninf =>
    refine ⟨min (-(10 ^ 8)) (10 ^ 8), ?_, by norm_num, by norm_num⟩
    simp [hy, fqOps, FQ.maxF, FQ.minF, FQ.isnanF]
  | fin q0 =>
    refine ⟨min (max q0 (-(10 ^ 8))) (10 ^ 8), ?_, ?_, min_le_right _ _⟩
    · simp [hy, fqOps, FQ.maxF, FQ.minF, FQ.isnanF]
    · exact le_min (le_max_right _ _) (by norm_num)

/-- C5: with clip_ytnext enabled every entry of the next estimate produced
by inv_lin is clamped to [-1e8, 1e8] and NaN entries become 0, all before
the error is computed from it; with clip_ytnext disabled, a NaN produced by
inv_lin in the first iteration is left untouched: the error becomes NaN,
the comparison err > tol is false, and the loop returns that estimate with
the NaN still in place. -/
theorem clipping_guard {ns ny : ℕ} {X P IL SF : Type}
    (I : DeerInst FQ ns ny X P IL SF) (dt : DType) (max_iter : ℕ)
    (yinit_guess : SeqT FQ ns ny) (i0 : Fin ns) (j0 : Fin ny)
    (hmax : 1 ≤ max_iter)
    (hnan : nextEstimate fqOps I false yinit_guess i0 j0 = FQ.nan) :
    (∀ s : DeerSt FQ ns ny,
      (iterFunc fqOps I true s).yt =
        clipSeq fqOps (I.invLin (gtsOf fqOps I s.yt) (rhsOf fqOps I s.yt) I.ilp) ∧
      (iterFunc fqOps I true s).err =
        maxAbsSeq fqOps (seqSub fqOps
          (clipSeq fqOps (I.invLin (gtsOf fqOps I s.yt) (rhsOf fqOps I s.yt) I.ilp))
          s.yt) ∧
      ∀ (i : Fin ns) (j : Fin ny), ∃ q : ℚ,
        (iterFunc fqOps I true s).yt i j = FQ.fin q ∧
        -(10 ^ 8) ≤ q ∧ q ≤ 10 ^ 8) ∧
    ((deer_iteration_helper fqOps I dt yinit_guess max_iter false).yt =
        I.invLin (gtsOf fqOps I yinit_guess) (rhsOf fqOps I yinit_guess) I.ilp ∧
     (deer_iteration_helper fqOps I dt yinit_guess max_iter false).yt i0 j0 =
        FQ.nan) := by
  constructor
  · intro s
    refine ⟨rfl, rfl, ?_⟩
    intro i j
    exact clipSeq_bounded _ i j
  · obtain ⟨m, rfl⟩ : ∃ m, max_iter = m + 1 := ⟨max_iter - 1, by omega⟩
    have hc0 : condFunc fqOps dt (m + 1)
        { err := fqOps.ofQ (10 ^ 10), yt := yinit_guess,
          gts := List.replicate I.p_num (zeroMatSeq fqOps), iiter := 0 } = true := by
      have htol : tolQ dt < 10 ^ 10 := by
        cases dt with
        | float32 => rw [tolQ_f32]; norm_num
        | float64 => rw [tolQ_f64]; norm_num
        | float16 => rw [tolQ_f16]; norm_num
      show (FQ.ltbF (FQ.fin (tolQ dt)) (FQ.fin (10 ^ 10)) && decide (0 < m + 1)) = true
      simp [FQ.ltbF, htol]
    have herr1 : (iterFunc fqOps I false
        { err := fqOps.ofQ (10 ^ 10), yt := yinit_guess,
          gts := List.replicate I.p_num (zeroMatSeq fqOps), iiter := 0 }).err =
        FQ.nan := by
      show maxAbsSeq fqOps
        (seqSub fqOps (nextEstimate fqOps I false yinit_guess) yinit_guess) = FQ.nan
      unfold maxAbsSeq
      apply listMax_nan
      apply List.mem_flatten.mpr
      refine ⟨_, List.mem_map_of_mem _ (List.mem_finRange i0), ?_⟩
      have hsub : fqOps.absv
          (seqSub fqOps (nextEstimate fqOps I false yinit_guess) yinit_guess i0 j0) =
          FQ.nan := by
        show FQ.absF (FQ.subF (nextEstimate fqOps I false yinit_guess i0 j0)
          (yinit_guess i0 j0)) = FQ.nan
        rw [hnan, FQ.subF, FQ.addF_nan_left, FQ.absF]
      rw [← hsub]
      exact List.mem_map_of_mem _ (List.mem_finRange j0)
    have hstep : deer_iteration_helper fqOps I dt yinit_guess (m + 1) false =
        iterFunc fqOps I false
          { err := fqOps.ofQ (10 ^ 10), yt := yinit_guess,
            gts := List.replicate I.p_num (zeroMatSeq fqOps), iiter := 0 } := by
      rw [deer_iteration_helper, whileLoop_succ, if_pos hc0]
      apply whileLoop_of_cond_false
      have hltb : fqOps.ltb (fqOps.ofQ (tolQ dt)) FQ.nan = false := rfl
      simp [condFunc, herr1, hltb]
    rw [hstep]
    exact ⟨rfl, hnan⟩

/-- A collaborator set whose inv_lin emits a NaN (as a divergent
linearization would): used to witness the clipping-guard claim. -/
def nanInst : DeerInst FQ 1 1 Unit Unit Unit Unit where
  invLin := fun _ _ _ => fun _ _ => FQ.nan
  func := fun _ _ _ => fun _ => FQ.fin 0
  jacfunc := fun _ _ _ => [fun _ _ => FQ.fin 0]
  shifterFunc := fun y _ => [y]
  p_num := 1
  params := ()
  xinput := fun _ => ()
  ilp := ()
  sfp := ()

/-- Witness for the clipping-guard theorem at the NaN-emitting instance. -/
theorem clipping_guard_witness :
    (∀ s : DeerSt FQ 1 1,
      (iterFunc fqOps nanInst true s).yt =
        clipSeq fqOps (nanInst.invLin (gtsOf fqOps nanInst s.yt)
          (rhsOf fqOps nanInst s.yt) nanInst.ilp) ∧
      (iterFunc fqOps nanInst true s).err =
        maxAbsSeq fqOps (seqSub fqOps
          (clipSeq fqOps (nanInst.invLin (gtsOf fqOps nanInst s.yt)
            (rhsOf fqOps nanInst s.yt) nanInst.ilp))
          s.yt) ∧
      ∀ (i : Fin 1) (j : Fin 1), ∃ q : ℚ,
        (iterFunc fqOps nanInst true s).yt i j = FQ.fin q ∧
        -(10 ^ 8) ≤ q ∧ q ≤ 10 ^ 8) ∧
    ((deer_iteration_helper fqOps nanInst DType.float32 (fun _ _ => FQ.fin 0) 1
        false).yt =
      nanInst.invLin (gtsOf fqOps nanInst (fun _ _ => FQ.fin 0))
        (rhsOf fqOps nanInst (fun _ _ => FQ.fin 0)) nanInst.ilp ∧
     (deer_iteration_helper fqOps nanInst DType.float32 (fun _ _ => FQ.fin 0) 1
        false).yt 0 0 = FQ.nan) :=
  clipping_guard nanInst DType.float32 1 (fun _ _ => FQ.fin 0) 0 0
    (le_refl 1) rfl

/-- The engine scalar sum over exact rationals is the list sum. -/
lemma sumO_rat (l : List ℚ) : sumO ratOps l = l.sum := by
  induction l with
  | nil => rfl
  | cons a t ih => simp [sumO, ratOps] at ih ⊢; simp [ih]

/-- The engine matrix–vector product over exact rationals is the usual
row-by-column sum. -/
lemma matVecO_rat {ny : ℕ} (m : MatT ℚ ny) (v : VecT ℚ ny) (r : Fin ny) :
    matVecO ratOps m v r = ∑ c, m r c * v c := by
  rw [matVecO, sumO_rat]
  exact (Fin.sum_univ_def _).symm

/-- C6: in every iteration the Jacobian bundle handed onward consists of
the negated per-sample Jacobians of func with respect to each of its
shifted arguments at the current shift set, the right-hand side equals
func evaluated at the shift set plus the sum over k of bundle block k
applied to shift k, and the next estimate is inv_lin applied to exactly
this bundle and right-hand side (clipped only when requested). -/
theorem jacobian_bundle_rhs {ns ny : ℕ} {X P IL SF : Type}
    (I : DeerInst ℚ ns ny X P IL SF) (clip : Bool) (s : DeerSt ℚ ns ny) :
    ((iterFunc ratOps I clip s).gts =
      (List.range (I.shifterFunc s.yt I.sfp).length).map (fun k => fun i r c =>
        -(((I.jacfunc ((I.shifterFunc s.yt I.sfp).map (fun t => t i))
            (I.xinput i) I.params).getD k (fun _ _ => 0)) r c))) ∧
    (∀ (i : Fin ns) (r : Fin ny), rhsOf ratOps I s.yt i r =
      I.func ((I.shifterFunc s.yt I.sfp).map (fun t => t i)) (I.xinput i) I.params r +
      (List.zipWith (fun (g : MatSeq ℚ ns ny) (t : SeqT ℚ ns ny) =>
          ∑ c, g i r c * t i c)
        (iterFunc ratOps I clip s).gts (I.shifterFunc s.yt I.sfp)).sum) ∧
    ((iterFunc ratOps I clip s).yt =
      if clip then
        clipSeq ratOps (I.invLin (iterFunc ratOps I clip s).gts
          (rhsOf ratOps I s.yt) I.ilp)
      else I.invLin (iterFunc ratOps I clip s).gts (rhsOf ratOps I s.yt) I.ilp) := by
  refine ⟨?_, ?_, ?_⟩
  · show gtsOf ratOps I s.yt = _
    rw [gtsOf, vmapJacF, List.map_map]
    rfl
  · intro i r
    show (rhsOf ratOps I s.yt) i r = _
    rw [rhsOf]
    show ratOps.add (vmapF I (I.shifterFunc s.yt I.sfp) i r)
      (seqSum ratOps (List.zipWith (einsumO ratOps) (gtsOf ratOps I s.yt)
        (I.shifterFunc s.yt I.sfp)) i r) = _
    rw [seqSum]
    show vmapF I (I.shifterFunc s.yt I.sfp) i r +
      sumO ratOps ((List.zipWith (einsumO ratOps) (gtsOf ratOps I s.yt)
        (I.shifterFunc s.yt I.sfp)).map (fun t => t i r)) = _
    rw [sumO_rat, List.map_zipWith]
    show _ + (List.zipWith (fun g t => matVecO ratOps (g i) (t i) r)
      (gtsOf ratOps I s.yt) (I.shifterFunc s.yt I.sfp)).sum = _
    simp only [matVecO_rat]
    rfl
  · rfl

/-- Both selectable tolerances are positive. -/
lemma tolQ_pos (dt : DType) : 0 < tolQ dt := by
  cases dt with
  | float32 => rw [tolQ_f32]; norm_num
  | float64 => rw [tolQ_f64]; norm_num
  | float16 => rw [tolQ_f16]; norm_num

/-- Both selectable tolerances are below the 1e10 error sentinel. -/
lemma tolQ_lt_sentinel (dt : DType) : tolQ dt < 10 ^ 10 := by
  cases dt with
  | float32 => rw [tolQ_f32]; norm_num
  | float64 => rw [tolQ_f64]; norm_num
  | float16 => rw [tolQ_f16]; norm_num

lemma foldl_max_zeros : ∀ (t : List ℚ) (a : ℚ), (∀ x ∈ t, x = 0) → a = 0 →
    t.foldl max a = 0 := by
  intro t
  induction t with
  | nil => intro a _ ha; simpa using ha
  | cons x t ih =>
    intro a h ha
    have hx : x = 0 := h x (List.mem_cons_self x t)
    refine ih (max a x) (fun y hy => h y (List.mem_cons_of_mem x hy)) ?_
    rw [hx, ha]
    simp

/-- jnp.max of a list of zeros is zero (also on the empty list, where the
engine default applies). -/
lemma listMax_zeros (l : List ℚ) (h : ∀ x ∈ l, x = 0) : listMax ratOps l = 0 := by
  cases l with
  | nil => rfl
  | cons a t =>
    show t.foldl max a = 0
    exact foldl_max_zeros t a (fun x hx => h x (List.mem_cons_of_mem a hx))
      (h a (List.mem_cons_self a t))

/-- The error norm of the difference of a sequence with itself is zero. -/
lemma maxAbsSeq_self_sub {ns ny : ℕ} (a : SeqT ℚ ns ny) :
    maxAbsSeq ratOps (seqSub ratOps a a) = 0 := by
  unfold maxAbsSeq
  apply listMax_zeros
  intro x hx
  rcases List.mem_flatten.mp hx with ⟨row, hrow, hxrow⟩
  rcases List.mem_map.mp hrow with ⟨i, _, rfl⟩
  rcases List.mem_map.mp hxrow with ⟨j, _, rfl⟩
  show |ratOps.sub (a i j) (a i j)| = 0
  show |a i j - a i j| = 0
  simp

/-- C8 (amended): when the supplied initial guess is an exact fixed point of
the per-iteration estimate update, the loop computes error 0 on its first
iteration (0 is at or below every selectable tolerance) and stops after
exactly one iteration, returning the guess unchanged. -/
theorem fixed_point_stability {ns ny : ℕ} {X P IL SF : Type}
    (I : DeerInst ℚ ns ny X P IL SF) (dt : DType) (clip : Bool)
    (max_iter : ℕ) (yc : SeqT ℚ ns ny)
    (hmax : 1 ≤ max_iter)
    (hfix : nextEstimate ratOps I clip yc = yc) :
    (deer_iteration_helper ratOps I dt yc max_iter clip).iiter = 1 ∧
    (deer_iteration_helper ratOps I dt yc max_iter clip).err = 0 ∧
    (deer_iteration_helper ratOps I dt yc max_iter clip).yt = yc := by
  obtain ⟨m, rfl⟩ : ∃ m, max_iter = m + 1 := ⟨max_iter - 1, by omega⟩
  have hc0 : condFunc ratOps dt (m + 1)
      { err := ratOps.ofQ (10 ^ 10), yt := yc,
        gts := List.replicate I.p_num (zeroMatSeq ratOps), iiter := 0 } = true := by
    have := tolQ_lt_sentinel dt
    simp [condFunc, ratOps, this]
  have herr1 : (iterFunc ratOps I clip
      { err := ratOps.ofQ (10 ^ 10), yt := yc,
        gts := List.replicate I.p_num (zeroMatSeq ratOps), iiter := 0 }).err = 0 := by
    show maxAbsSeq ratOps (seqSub ratOps (nextEstimate ratOps I clip yc) yc) = 0
    rw [hfix]
    exact maxAbsSeq_self_sub yc
  have hc1 : condFunc ratOps dt (m + 1)
      (iterFunc ratOps I clip
        { err := ratOps.ofQ (10 ^ 10), yt := yc,
          gts := List.replicate I.p_num (zeroMatSeq ratOps), iiter := 0 }) = false := by
    have hpos := tolQ_pos dt
    rw [condFunc, herr1]
    have hl : ratOps.ltb (ratOps.ofQ (tolQ dt)) 0 = false := by
      show decide (tolQ dt < 0) = false
      simp only [decide_eq_false_iff_not, not_lt]
      linarith
    simp [hl]
  have hrun : deer_iteration_helper ratOps I dt yc (m + 1) clip =
      iterFunc ratOps I clip
        { err := ratOps.ofQ (10 ^ 10), yt := yc,
          gts := List.replicate I.p_num (zeroMatSeq ratOps), iiter := 0 } := by
    rw [deer_iteration_helper, whileLoop_succ, if_pos hc0]
    exact whileLoop_of_cond_false _ _ m _ hc1
  rw [hrun]
  refine ⟨rfl, herr1, ?_⟩
  show nextEstimate ratOps I clip yc = yc
  exact hfix

/-- A one-sample, one-dimensional collaborator set built from a scalar map
f: shifter_func is the identity singleton, func applies f (implemented with
jnp.where / stop_gradient-style branches, so jax.jacfwd yields 0), and
inv_lin returns the rhs; one loop iteration maps the estimate y to f(y). -/
def scalarInst (f : ℚ → ℚ) : DeerInst ℚ 1 1 Unit Unit Unit Unit where
  invLin := fun _ rhs _ => rhs
  func := fun zs _ _ => fun _ => f (zs.getD 0 (fun _ => 0) 0)
  jacfunc := fun _ _ _ => [fun _ _ => 0]
  shifterFunc := fun y _ => [y]
  p_num := 1
  params := ()
  xinput := fun _ => ()
  ilp := ()
  sfp := ()

/-- The estimate update of a scalar instance is the pointwise application
of f. -/
lemma scalarInst_next (f : ℚ → ℚ) (yt : SeqT ℚ 1 1) :
    nextEstimate ratOps (scalarInst f) false yt = fun i _ => f (yt i 0) := by
  funext i j
  simp [nextEstimate, rhsOf, gtsOf, vmapJacF, vmapF, seqAdd, seqSum,
    einsumO, matVecO, sumO, scalarInst, ratOps, zeroMat, List.range_succ,
    List.range_zero, List.finRange_succ, Function.comp]

/-- The error of one scalar-instance iteration. -/
lemma scalarInst_iter_err (f : ℚ → ℚ) (s : DeerSt ℚ 1 1) :
    (iterFunc ratOps (scalarInst f) false s).err = |f (s.yt 0 0) - s.yt 0 0| := by
  show maxAbsSeq ratOps
    (seqSub ratOps (nextEstimate ratOps (scalarInst f) false s.yt) s.yt) = _
  rw [maxAbsSeq_scalar, scalarInst_next]
  rfl

/-- The estimate after one scalar-instance iteration. -/
lemma scalarInst_iter_yt (f : ℚ → ℚ) (s : DeerSt ℚ 1 1) :
    (iterFunc ratOps (scalarInst f) false s).yt = fun i _ => f (s.yt i 0) := by
  show nextEstimate ratOps (scalarInst f) false s.yt = _
  exact scalarInst_next f s.yt

/-- Witness for the amended fixed-point-stability theorem: the constant map
has the constant sequence as exact fixed point, and re-running from it
stops after one iteration with error 0. -/
theorem fixed_point_stability_witness :
    (deer_iteration_helper ratOps (scalarInst (fun _ => 5)) DType.float64
      (fun _ _ => 5) 7 false).iiter = 1 ∧
    (deer_iteration_helper ratOps (scalarInst (fun _ => 5)) DType.float64
      (fun _ _ => 5) 7 false).err = 0 ∧
    (deer_iteration_helper ratOps (scalarInst (fun _ => 5)) DType.float64
      (fun _ _ => 5) 7 false).yt = fun _ _ => 5 :=
  fixed_point_stability (scalarInst (fun _ => 5)) DType.float64 false 7
    (fun _ _ => 5) (by norm_num)
    (by rw [scalarInst_next])

/-- The scalar map of the counterexample: jnp.where(y == 0, 1e-7, 17).
Its forward-mode derivative is 0 everywhere, consistent with scalarInst. -/
def kinkF : ℚ → ℚ := fun z => if z = 0 then 1 / 10 ^ 7 else 17


/-- The initial while-loop carry of deer_iteration_helper (lines 133-136):
sentinel error 1e10, the supplied guess, p_num zero Jacobian stacks,
counter 0. -/
def initSt {α : Type} (ops : ScalarOps α) {ns ny : ℕ} (p : ℕ)
    (y : SeqT α ns ny) : DeerSt α ns ny :=
  { err := ops.ofQ (10 ^ 10), yt := y,
    gts := List.replicate p (zeroMatSeq ops), iiter := 0 }

lemma helper_eq_whileLoop {α : Type} (ops : ScalarOps α) {ns ny : ℕ}
    {X P IL SF : Type} (I : DeerInst α ns ny X P IL SF) (dt : DType)
    (y : SeqT α ns ny) (max_iter : ℕ) (clip : Bool) :
    deer_iteration_helper ops I dt y max_iter clip =
      whileLoop (condFunc ops dt max_iter) (iterFunc ops I clip) max_iter
        (initSt ops I.p_num y) := rfl

/-- The loop condition holds at any initial carry when the budget is
positive, for exact rationals. -/
lemma condFunc_initSt_true {ns ny : ℕ} (dt : DType) (m p : ℕ)
    (y : SeqT ℚ ns ny) :
    condFunc ratOps dt (m + 1) (initSt ratOps p y) = true := by
  have := tolQ_lt_sentinel dt
  simp [condFunc, initSt, ratOps, this]

/-- C8 counterexample: from yinit 0 the float64 run stops after one
iteration with error exactly 1e-7 ≤ tolerance (converged, with budget 10
far from exhausted), returning the constant estimate 1e-7; but re-running
with that converged output as yinit_guess needs two iterations — the first
re-run iteration has error 17 - 1e-7 > tolerance — refuting "the re-run
loop stops after exactly one iteration". -/
theorem fixed_point_stability_cex :
    (deer_iteration_helper ratOps (scalarInst kinkF) DType.float64
      (fun _ _ => 0) 10 false).iiter = 1 ∧
    (deer_iteration_helper ratOps (scalarInst kinkF) DType.float64
      (fun _ _ => 0) 10 false).err = 1 / 10 ^ 7 ∧
    tolQ DType.float64 = 1 / 10 ^ 7 ∧
    (deer_iteration_helper ratOps (scalarInst kinkF) DType.float64
      (fun _ _ => 0) 10 false).yt = (fun _ _ => 1 / 10 ^ 7) ∧
    (deer_iteration_helper ratOps (scalarInst kinkF) DType.float64
      (deer_iteration_helper ratOps (scalarInst kinkF) DType.float64
        (fun _ _ => 0) 10 false).yt 10 false).iiter = 2 := by
  have hf0 : kinkF 0 = 1 / 10 ^ 7 := by simp [kinkF]
  have hfe : kinkF (1 / 10 ^ 7) = 17 := by rw [kinkF]; norm_num
  have hf17 : kinkF 17 = 17 := by rw [kinkF]; norm_num
  -- first run: one iteration, error 1e-7
  have s1err : (iterFunc ratOps (scalarInst kinkF) false
      (initSt ratOps (scalarInst kinkF).p_num (fun _ _ => 0))).err =
      |kinkF 0 - 0| := scalarInst_iter_err kinkF _
  rw [hf0, show |(1 : ℚ) / 10 ^ 7 - 0| = 1 / 10 ^ 7 by norm_num] at s1err
  have hc1 : condFunc ratOps DType.float64 10
      (iterFunc ratOps (scalarInst kinkF) false
        (initSt ratOps (scalarInst kinkF).p_num (fun _ _ => 0))) = false := by
    rw [condFunc, s1err]
    have hl : ratOps.ltb (ratOps.ofQ (tolQ DType.float64)) (1 / 10 ^ 7) = false := by
      show decide ((tolQ DType.float64 : ℚ) < 1 / 10 ^ 7) = false
      rw [tolQ_f64]
      norm_num
    rw [hl, Bool.false_and]
  have hrun1 : deer_iteration_helper ratOps (scalarInst kinkF) DType.float64
      (fun _ _ => 0) 10 false =
      iterFunc ratOps (scalarInst kinkF) false
        (initSt ratOps (scalarInst kinkF).p_num (fun _ _ => 0)) := by
    rw [helper_eq_whileLoop, whileLoop_succ,
      if_pos (condFunc_initSt_true DType.float64 9 _ _)]
    exact whileLoop_of_cond_false _ _ 9 _ hc1
  have hyt1 : (deer_iteration_helper ratOps (scalarInst kinkF) DType.float64
      (fun _ _ => 0) 10 false).yt = (fun _ _ => 1 / 10 ^ 7 : SeqT ℚ 1 1) := by
    rw [hrun1, scalarInst_iter_yt]
    funext i j
    show kinkF 0 = 1 / 10 ^ 7
    exact hf0
  refine ⟨by rw [hrun1]; rfl, by rw [hrun1]; exact s1err, rfl, hyt1, ?_⟩
  -- second run from the converged output: two iterations
  rw [hyt1]
  have s1berr : (iterFunc ratOps (scalarInst kinkF) false
      (initSt ratOps (scalarInst kinkF).p_num (fun _ _ => 1 / 10 ^ 7))).err =
      |kinkF (1 / 10 ^ 7) - 1 / 10 ^ 7| := scalarInst_iter_err kinkF _
  rw [hfe] at s1berr
  have hc1b : condFunc ratOps DType.float64 10
      (iterFunc ratOps (scalarInst kinkF) false
        (initSt ratOps (scalarInst kinkF).p_num (fun _ _ => 1 / 10 ^ 7))) =
      true := by
    rw [condFunc, s1berr]
    have hl : ratOps.ltb (ratOps.ofQ (tolQ DType.float64))
        |(17 : ℚ) - 1 / 10 ^ 7| = true := by
      show decide ((tolQ DType.float64 : ℚ) < |(17 : ℚ) - 1 / 10 ^ 7|) = true
      rw [tolQ_f64, show |(17 : ℚ) - 1 / 10 ^ 7| = 17 - 1 / 10 ^ 7 by norm_num]
      norm_num
    rw [hl, Bool.true_and]
    rfl
  have hyt1b : (iterFunc ratOps (scalarInst kinkF) false
      (initSt ratOps (scalarInst kinkF).p_num (fun _ _ => 1 / 10 ^ 7))).yt =
      (fun _ _ => 17 : SeqT ℚ 1 1) := by
    rw [scalarInst_iter_yt]
    funext i j
    show kinkF (1 / 10 ^ 7) = 17
    exact hfe
  have s2berr : (iterFunc ratOps (scalarInst kinkF) false
      (iterFunc ratOps (scalarInst kinkF) false
        (initSt ratOps (scalarInst kinkF).p_num (fun _ _ => 1 / 10 ^ 7)))).err =
      |kinkF ((iterFunc ratOps (scalarInst kinkF) false
        (initSt ratOps (scalarInst kinkF).p_num (fun _ _ => 1 / 10 ^ 7))).yt 0 0) -
        (iterFunc ratOps (scalarInst kinkF) false
        (initSt ratOps (scalarInst kinkF).p_num (fun _ _ => 1 / 10 ^ 7))).yt 0 0| :=
    scalarInst_iter_err kinkF _
  rw [hyt1b] at s2berr
  rw [show ((fun _ _ => 17 : SeqT ℚ 1 1)) 0 0 = (17 : ℚ) from rfl, hf17] at s2berr
  have hc2b : condFunc ratOps DType.float64 10
      (iterFunc ratOps (scalarInst kinkF) false
        (iterFunc ratOps (scalarInst kinkF) false
          (initSt ratOps (scalarInst kinkF).p_num (fun _ _ => 1 / 10 ^ 7)))) =
      false := by
    rw [condFunc, s2berr]
    have hl : ratOps.ltb (ratOps.ofQ (tolQ DType.float64)) |(17 : ℚ) - 17| = false := by
      show decide ((tolQ DType.float64 : ℚ) < |(17 : ℚ) - 17|) = false
      rw [tolQ_f64]
      norm_num
    rw [hl, Bool.false_and]
  have hrun2 : deer_iteration_helper ratOps (scalarInst kinkF) DType.float64
      (fun _ _ => 1 / 10 ^ 7) 10 false =
      iterFunc ratOps (scalarInst kinkF) false
        (iterFunc ratOps (scalarInst kinkF) false
          (initSt ratOps (scalarInst kinkF).p_num (fun _ _ => 1 / 10 ^ 7))) := by
    rw [helper_eq_whileLoop, whileLoop_succ,
      if_pos (condFunc_initSt_true DType.float64 9 _ _), whileLoop_succ,
      if_pos hc1b]
    exact whileLoop_of_cond_false _ _ 8 _ hc2b
  rw [hrun2]
  rfl

/-- The loop condition fails at any state whose error is zero. -/
lemma condFunc_err_zero_false {ns ny : ℕ} (dt : DType) (max_iter : ℕ)
    (s : DeerSt ℚ ns ny) (h : s.err = 0) :
    condFunc ratOps dt max_iter s = false := by
  rw [condFunc, h]
  have hpos := tolQ_pos dt
  have hl : ratOps.ltb (ratOps.ofQ (tolQ dt)) 0 = false := by
    show decide (tolQ dt < 0) = false
    simp only [decide_eq_false_iff_not, not_lt]
    linarith
  rw [hl, Bool.false_and]

/-- When the estimate update and the Jacobian bundle do not depend on the
current estimate (as for an affine func with exact Jacobians), the loop is
stationary from the first iteration: whatever the initial guess, the final
estimate is the constant value K and the bundle is G; the loop stops after
at most two iterations, with error 0 when the second iteration ran, and
with error within tolerance when it stopped after the first. -/
lemma constant_step_run {ns ny : ℕ} {X P IL SF : Type}
    (I : DeerInst ℚ ns ny X P IL SF) (dt : DType) (clip : Bool)
    (max_iter : ℕ) (y0 K : SeqT ℚ ns ny) (G : List (MatSeq ℚ ns ny))
    (hmax : 2 ≤ max_iter)
    (hK : ∀ yt : SeqT ℚ ns ny, nextEstimate ratOps I clip yt = K)
    (hG : ∀ yt : SeqT ℚ ns ny, gtsOf ratOps I yt = G) :
    (deer_iteration_helper ratOps I dt y0 max_iter clip).yt = K ∧
    (deer_iteration_helper ratOps I dt y0 max_iter clip).gts = G ∧
    1 ≤ (deer_iteration_helper ratOps I dt y0 max_iter clip).iiter ∧
    (deer_iteration_helper ratOps I dt y0 max_iter clip).iiter ≤ 2 ∧
    ((deer_iteration_helper ratOps I dt y0 max_iter clip).iiter = 2 →
      (deer_iteration_helper ratOps I dt y0 max_iter clip).err = 0) ∧
    ((deer_iteration_helper ratOps I dt y0 max_iter clip).iiter = 1 →
      (deer_iteration_helper ratOps I dt y0 max_iter clip).err ≤ tolQ dt) := by
  obtain ⟨m, rfl⟩ : ∃ m, max_iter = m + 2 := ⟨max_iter - 2, by omega⟩
  rw [helper_eq_whileLoop]
  rw [show m + 2 = (m + 1) + 1 from rfl, whileLoop_succ,
    if_pos (condFunc_initSt_true dt (m + 1) I.p_num y0)]
  set s1 := iterFunc ratOps I clip (initSt ratOps I.p_num y0) with hs1
  have hs1yt : s1.yt = K := hK y0
  have hs1gts : s1.gts = G := hG y0
  have hs1iiter : s1.iiter = 1 := rfl
  rcases hcs1 : condFunc ratOps dt (m + 2) s1 with _ | _
  · rw [whileLoop_of_cond_false _ _ (m + 1) s1 hcs1]
    refine ⟨hs1yt, hs1gts, by omega, by omega, by omega, ?_⟩
    intro _
    rw [condFunc, Bool.and_eq_false_iff] at hcs1
    rcases hcs1 with hcs1 | hcs1
    · have : ¬ tolQ dt < s1.err := by
        have := congrArg (fun b => b = false) hcs1
        simpa [ratOps] using hcs1
      linarith
    · exfalso
      simp only [decide_eq_false_iff_not, Nat.not_lt, hs1iiter] at hcs1
      omega
  · rw [whileLoop_succ, if_pos hcs1]
    set s2 := iterFunc ratOps I clip s1 with hs2
    have hs2err : s2.err = 0 := by
      show maxAbsSeq ratOps
        (seqSub ratOps (nextEstimate ratOps I clip s1.yt) s1.yt) = 0
      rw [hK s1.yt, hs1yt]
      exact maxAbsSeq_self_sub K
    have hs2yt : s2.yt = K := hK s1.yt
    have hs2gts : s2.gts = G := hG s1.yt
    have hs2iiter : s2.iiter = 2 := rfl
    rw [whileLoop_of_cond_false _ _ m s2 (condFunc_err_zero_false dt _ s2 hs2err)]
    exact ⟨hs2yt, hs2gts, by omega, by omega, fun _ => hs2err, fun h => by omega⟩

/-- Indexing a list by its own range recovers the list. -/
lemma map_range_getD {α : Type} (l : List α) (d : α) :
    (List.range l.length).map (fun k => l.getD k d) = l := by
  apply List.ext_getElem
  · simp
  · intro i h1 h2
    simp only [List.getElem_map, List.getElem_range]
    rw [List.getD_eq_getElem l d h2]

/-- Sums of pointwise-negated zipWith combinations negate the sum. -/
lemma zipWith_neg_sum {α β : Type} (F : α → β → ℚ) :
    ∀ (l1 : List α) (l2 : List β),
      (List.zipWith (fun a b => -(F a b)) l1 l2).sum = -(List.zipWith F l1 l2).sum := by
  intro l1
  induction l1 with
  | nil => intro l2; simp
  | cons a t ih =>
    intro l2
    cases l2 with
    | nil => simp
    | cons b t2 =>
      simp only [List.zipWith_cons_cons, List.sum_cons, ih]
      ring

/-- Pointwise form of the assembled right-hand side over exact rationals. -/
lemma rhsOf_rat_apply {ns ny : ℕ} {X P IL SF : Type}
    (I : DeerInst ℚ ns ny X P IL SF) (yt : SeqT ℚ ns ny) (i : Fin ns) (r : Fin ny) :
    rhsOf ratOps I yt i r =
      I.func ((I.shifterFunc yt I.sfp).map (fun t => t i)) (I.xinput i) I.params r +
      (List.zipWith (fun (g : MatSeq ℚ ns ny) (t : SeqT ℚ ns ny) =>
          ∑ cc, g i r cc * t i cc)
        (gtsOf ratOps I yt) (I.shifterFunc yt I.sfp)).sum := by
  rw [rhsOf]
  show ratOps.add (vmapF I (I.shifterFunc yt I.sfp) i r)
    (seqSum ratOps (List.zipWith (einsumO ratOps) (gtsOf ratOps I yt)
      (I.shifterFunc yt I.sfp)) i r) = _
  rw [seqSum]
  show vmapF I (I.shifterFunc yt I.sfp) i r +
    sumO ratOps ((List.zipWith (einsumO ratOps) (gtsOf ratOps I yt)
      (I.shifterFunc yt I.sfp)).map (fun t => t i r)) = _
  rw [sumO_rat, List.map_zipWith]
  show _ + (List.zipWith (fun g t => matVecO ratOps (g i) (t i) r)
    (gtsOf ratOps I yt) (I.shifterFunc yt I.sfp)).sum = _
  simp only [matVecO_rat]
  rfl

/-- C3 (amended): if func is affine in its shift arguments with constant
coefficient blocks A_k and offset c(x, θ), and jacfwd yields exactly those
blocks, then the Jacobian bundle and the right-hand side do not depend on
the current estimate, so the first iteration already produces the final
estimate inv_lin(-A, c, inv_lin_params) for every initial guess; the loop
stops after at most two iterations, the error dropping to zero on the
second (it stops after one only when the first error is already within
tolerance). -/
theorem linear_equation_exactness {ns ny : ℕ} {X P IL SF : Type}
    (I : DeerInst ℚ ns ny X P IL SF) (dt : DType) (max_iter : ℕ)
    (y0 : SeqT ℚ ns ny) (A : List (MatT ℚ ny)) (c : X → P → VecT ℚ ny)
    (hmax : 2 ≤ max_iter)
    (hfunc : ∀ (zs : List (VecT ℚ ny)) (x : X) (θ : P) (r : Fin ny),
      zs.length = A.length →
      I.func zs x θ r =
        (List.zipWith (fun (a : MatT ℚ ny) (z : VecT ℚ ny) =>
          ∑ cc, a r cc * z cc) A zs).sum + c x θ r)
    (hjac : ∀ (zs : List (VecT ℚ ny)) (x : X) (θ : P), I.jacfunc zs x θ = A)
    (hshift : ∀ yt : SeqT ℚ ns ny, (I.shifterFunc yt I.sfp).length = A.length) :
    (deer_iteration_helper ratOps I dt y0 max_iter false).yt =
      I.invLin (A.map (fun a => (fun _ r cc => -(a r cc) : MatSeq ℚ ns ny)))
        (fun i r => c (I.xinput i) I.params r) I.ilp ∧
    1 ≤ (deer_iteration_helper ratOps I dt y0 max_iter false).iiter ∧
    (deer_iteration_helper ratOps I dt y0 max_iter false).iiter ≤ 2 ∧
    ((deer_iteration_helper ratOps I dt y0 max_iter false).iiter = 2 →
      (deer_iteration_helper ratOps I dt y0 max_iter false).err = 0) ∧
    ((deer_iteration_helper ratOps I dt y0 max_iter false).iiter = 1 →
      (deer_iteration_helper ratOps I dt y0 max_iter false).err ≤ tolQ dt) := by
  have hG : ∀ yt : SeqT ℚ ns ny, gtsOf ratOps I yt =
      A.map (fun a => (fun _ r cc => -(a r cc) : MatSeq ℚ ns ny)) := by
    intro yt
    rw [gtsOf, vmapJacF]
    simp only [hjac, hshift]
    rw [List.map_map]
    rw [show ((fun (g : MatSeq ℚ ns ny) i r cc => ratOps.neg (g i r cc)) ∘
        (fun k (_ : Fin ns) => A.getD k (zeroMat ratOps))) =
        ((fun a => (fun _ r cc => -(a r cc) : MatSeq ℚ ns ny)) ∘
        (fun k => A.getD k (zeroMat ratOps))) from rfl]
    rw [← List.map_map, map_range_getD]
  have hrhs : ∀ yt : SeqT ℚ ns ny, rhsOf ratOps I yt =
      fun i r => c (I.xinput i) I.params r := by
    intro yt
    funext i r
    rw [rhsOf_rat_apply]
    rw [hfunc _ _ _ r (by rw [List.length_map, hshift yt])]
    rw [hG yt]
    rw [List.zipWith_map_right, List.zipWith_map_left]
    have hneg : (List.zipWith (fun (a : MatT ℚ ny) (t : SeqT ℚ ns ny) =>
        ∑ cc, (fun (_ : Fin ns) r cc => -(a r cc) : MatSeq ℚ ns ny) i r cc * t i cc)
        A (I.shifterFunc yt I.sfp)).sum =
        -(List.zipWith (fun (a : MatT ℚ ny) (t : SeqT ℚ ns ny) =>
          ∑ cc, a r cc * t i cc) A (I.shifterFunc yt I.sfp)).sum := by
      rw [show (fun (a : MatT ℚ ny) (t : SeqT ℚ ns ny) =>
          ∑ cc, (fun (_ : Fin ns) r cc => -(a r cc) : MatSeq ℚ ns ny) i r cc * t i cc) =
          (fun (a : MatT ℚ ny) (t : SeqT ℚ ns ny) =>
            -(∑ cc, a r cc * t i cc)) from ?_]
      · exact zipWith_neg_sum _ A (I.shifterFunc yt I.sfp)
      · funext a t
        rw [← Finset.sum_neg_distrib]
        congr 1
        funext cc
        ring
    rw [hneg]
    ring
  have hK : ∀ yt : SeqT ℚ ns ny, nextEstimate ratOps I false yt =
      I.invLin (A.map (fun a => (fun _ r cc => -(a r cc) : MatSeq ℚ ns ny)))
        (fun i r => c (I.xinput i) I.params r) I.ilp := by
    intro yt
    show I.invLin (gtsOf ratOps I yt) (rhsOf ratOps I yt) I.ilp = _
    rw [hG yt, hrhs yt]
  have := constant_step_run I dt false max_iter y0 _ _ hmax hK hG
  exact ⟨this.1, this.2.2.1, this.2.2.2.1, this.2.2.2.2.1, this.2.2.2.2.2⟩

/-- A one-sample, one-dimensional affine collaborator set: func(z) = 2z + 3
with exact Jacobian block 2, identity-singleton shifter, and an inv_lin
that exactly solves the assembled linear system 5·y + g·y = rhs.  The
fixed point is y = 3/(5-2) = 1. -/
def affInst : DeerInst ℚ 1 1 Unit Unit Unit Unit where
  invLin := fun gs rhs _ => fun i j => rhs i j / (5 + gs.getD 0 (zeroMatSeq ratOps) i j j)
  func := fun zs _ _ => fun _ => 2 * zs.getD 0 (fun _ => 0) 0 + 3
  jacfunc := fun _ _ _ => [fun _ _ => 2]
  shifterFunc := fun y _ => [y]
  p_num := 1
  params := ()
  xinput := fun _ => ()
  ilp := ()
  sfp := ()

/-- One iteration of the affine instance lands exactly on the fixed point
1, independently of the current estimate. -/
lemma affInst_next (yt : SeqT ℚ 1 1) :
    nextEstimate ratOps affInst false yt = fun _ _ => 1 := by
  funext i j
  show affInst.invLin (gtsOf ratOps affInst yt) (rhsOf ratOps affInst yt) () i j = 1
  have hg : gtsOf ratOps affInst yt = [fun _ _ _ => -2] := by
    simp [gtsOf, vmapJacF, affInst, ratOps, List.range_succ, List.range_zero,
      Function.comp]
  have hr : rhsOf ratOps affInst yt = fun _ _ => 3 := by
    funext i2 j2
    simp [rhsOf, gtsOf, vmapJacF, vmapF, seqAdd, seqSum, einsumO, matVecO,
      sumO, affInst, ratOps, zeroMat, List.range_succ, List.range_zero,
      List.finRange_succ, Function.comp]
  rw [hg, hr]
  show (3 : ℚ) / (5 + -2) = 1
  norm_num

/-- The error of one affine-instance iteration. -/
lemma affInst_iter_err (s : DeerSt ℚ 1 1) :
    (iterFunc ratOps affInst false s).err = |1 - s.yt 0 0| := by
  show maxAbsSeq ratOps
    (seqSub ratOps (nextEstimate ratOps affInst false s.yt) s.yt) = _
  rw [maxAbsSeq_scalar, affInst_next]
  rfl

/-- C3 counterexample: for the affine func 2z + 3 with exact Jacobian and
an inv_lin that exactly solves the assembled system, starting from
yinit_guess = 100 the loop performs two iterations, not one: the first
iteration's error is |1 - 100| = 99 (far above tolerance), only the second
iteration's error is 0.  The final conjunct checks that this inv_lin is an
exact solver of 5y + g·y = rhs whenever the system is nonsingular. -/
theorem linear_equation_exactness_cex :
    (deer_iteration_helper ratOps affInst DType.float64 (fun _ _ => 100) 30
      false).iiter = 2 ∧
    (deer_iteration_helper ratOps affInst DType.float64 (fun _ _ => 100) 30
      false).yt = (fun _ _ => 1) ∧
    (deer_iteration_helper ratOps affInst DType.float64 (fun _ _ => 100) 30
      false).err = 0 ∧
    (∀ (g : MatSeq ℚ 1 1) (rhs : SeqT ℚ 1 1) (i j : Fin 1), g i j j ≠ -5 →
      5 * affInst.invLin [g] rhs () i j + g i j j * affInst.invLin [g] rhs () i j =
        rhs i j) := by
  have s1err : (iterFunc ratOps affInst false
      (initSt ratOps affInst.p_num (fun _ _ => 100))).err = |1 - 100| :=
    affInst_iter_err _
  have hc1 : condFunc ratOps DType.float64 30
      (iterFunc ratOps affInst false
        (initSt ratOps affInst.p_num (fun _ _ => 100))) = true := by
    rw [condFunc, s1err]
    have hl : ratOps.ltb (ratOps.ofQ (tolQ DType.float64)) |(1 : ℚ) - 100| = true := by
      show decide ((tolQ DType.float64 : ℚ) < |(1 : ℚ) - 100|) = true
      rw [tolQ_f64, show |(1 : ℚ) - 100| = 99 by norm_num]
      norm_num
    rw [hl, Bool.true_and]
    rfl
  have hyt1 : (iterFunc ratOps affInst false
      (initSt ratOps affInst.p_num (fun _ _ => 100))).yt = (fun _ _ => 1 : SeqT ℚ 1 1) := by
    show nextEstimate ratOps affInst false _ = _
    exact affInst_next _
  have s2err : (iterFunc ratOps affInst false
      (iterFunc ratOps affInst false
        (initSt ratOps affInst.p_num (fun _ _ => 100)))).err =
      |1 - (iterFunc ratOps affInst false
        (initSt ratOps affInst.p_num (fun _ _ => 100))).yt 0 0| :=
    affInst_iter_err _
  rw [hyt1] at s2err
  rw [show ((fun _ _ => 1 : SeqT ℚ 1 1)) 0 0 = (1 : ℚ) from rfl] at s2err
  rw [show |(1 : ℚ) - 1| = 0 by norm_num] at s2err
  have hc2 : condFunc ratOps DType.float64 30
      (iterFunc ratOps affInst false
        (iterFunc ratOps affInst false
          (initSt ratOps affInst.p_num (fun _ _ => 100)))) = false :=
    condFunc_err_zero_false DType.float64 30 _ s2err
  have hrun : deer_iteration_helper ratOps affInst DType.float64
      (fun _ _ => 100) 30 false =
      iterFunc ratOps affInst false
        (iterFunc ratOps affInst false
          (initSt ratOps affInst.p_num (fun _ _ => 100))) := by
    rw [helper_eq_whileLoop, whileLoop_succ,
      if_pos (condFunc_initSt_true DType.float64 29 _ _), whileLoop_succ,
      if_pos hc1]
    exact whileLoop_of_cond_false _ _ 28 _ hc2
  refine ⟨by rw [hrun]; rfl, ?_, by rw [hrun]; exact s2err, ?_⟩
  · rw [hrun]
    show nextEstimate ratOps affInst false _ = _
    exact affInst_next _
  · intro g rhs i j hg
    show 5 * (rhs i j / (5 + [g].getD 0 (zeroMatSeq ratOps) i j j)) +
      g i j j * (rhs i j / (5 + [g].getD 0 (zeroMatSeq ratOps) i j j)) = rhs i j
    show 5 * (rhs i j / (5 + g i j j)) + g i j j * (rhs i j / (5 + g i j j)) = rhs i j
    have h5 : (5 : ℚ) + g i j j ≠ 0 := by
      intro hc
      apply hg
      linarith
    field_simp
    ring

/-- Witness for the amended linear-equation-exactness theorem at the
affine instance, started far from the solution. -/
theorem linear_equation_exactness_witness :
    (deer_iteration_helper ratOps affInst DType.float64 (fun _ _ => 100) 30
      false).yt =
      affInst.invLin (([fun _ _ => 2] : List (MatT ℚ 1)).map
        (fun a => (fun _ r cc => -(a r cc) : MatSeq ℚ 1 1)))
        (fun i r => (fun (_ : Unit) (_ : Unit) => (fun _ => 3 : VecT ℚ 1))
          (affInst.xinput i) affInst.params r) affInst.ilp ∧
    1 ≤ (deer_iteration_helper ratOps affInst DType.float64 (fun _ _ => 100) 30
      false).iiter ∧
    (deer_iteration_helper ratOps affInst DType.float64 (fun _ _ => 100) 30
      false).iiter ≤ 2 ∧
    ((deer_iteration_helper ratOps affInst DType.float64 (fun _ _ => 100) 30
      false).iiter = 2 →
      (deer_iteration_helper ratOps affInst DType.float64 (fun _ _ => 100) 30
        false).err = 0) ∧
    ((deer_iteration_helper ratOps affInst DType.float64 (fun _ _ => 100) 30
      false).iiter = 1 →
      (deer_iteration_helper ratOps affInst DType.float64 (fun _ _ => 100) 30
        false).err ≤ tolQ DType.float64) := by
  refine linear_equation_exactness affInst DType.float64 30 (fun _ _ => 100)
    [fun _ _ => 2] (fun _ _ => fun _ => 3) (by norm_num) ?_ ?_ ?_
  · intro zs x θ r h
    rcases zs with _ | ⟨z, zs'⟩
    · simp at h
    · rcases zs' with _ | ⟨w, t⟩
      · show 2 * z 0 + 3 = _
        simp [Fin.sum_univ_one]
      · simp at h
  · intro zs x θ
    rfl
  · intro yt
    rfl

/-- A misconfigured collaborator set: p_num is declared as 2 but
shifter_func produces a single shifted sequence (and jacfwd accordingly a
single Jacobian block).  deer_iteration_helper contains no validation of
these sizes. -/
def mismatchInst : DeerInst ℚ 1 1 Unit Unit Unit Unit where
  invLin := fun _ rhs _ => rhs
  func := fun _ _ _ => fun _ => 1
  jacfunc := fun _ _ _ => [fun _ _ => 0]
  shifterFunc := fun y _ => [y]
  p_num := 2
  params := ()
  xinput := fun _ => ()
  ilp := ()
  sfp := ()

/-- The estimate update of the mismatched instance (the zip silently
truncates; nothing rejects the configuration). -/
lemma mismatchInst_next (yt : SeqT ℚ 1 1) :
    nextEstimate ratOps mismatchInst false yt = fun _ _ => 1 := by
  funext i j
  simp [nextEstimate, rhsOf, gtsOf, vmapJacF, vmapF, seqAdd, seqSum,
    einsumO, matVecO, sumO, mismatchInst, ratOps, zeroMat, List.range_succ,
    List.range_zero, List.finRange_succ, Function.comp]

/-- The error of one mismatched-instance iteration. -/
lemma mismatchInst_iter_err (s : DeerSt ℚ 1 1) :
    (iterFunc ratOps mismatchInst false s).err = |1 - s.yt 0 0| := by
  show maxAbsSeq ratOps
    (seqSub ratOps (nextEstimate ratOps mismatchInst false s.yt) s.yt) = _
  rw [maxAbsSeq_scalar, mismatchInst_next]
  rfl

/-- C9: no configuration check exists.  With p_num = 2 but a shifter that
produces one sequence (so one Jacobian block), the fixed-point loop starts
and runs to completion — two iterations, converged output — with the
bundle silently truncated to length 1 by the zip; the mismatch is never
rejected before the loop. -/
theorem shape_mismatch_not_rejected :
    mismatchInst.p_num = 2 ∧
    (∀ yt : SeqT ℚ 1 1, (mismatchInst.shifterFunc yt mismatchInst.sfp).length = 1) ∧
    (∀ yt : SeqT ℚ 1 1, (gtsOf ratOps mismatchInst yt).length = 1) ∧
    (deer_iteration_helper ratOps mismatchInst DType.float64 (fun _ _ => 0) 50
      false).iiter = 2 ∧
    (deer_iteration_helper ratOps mismatchInst DType.float64 (fun _ _ => 0) 50
      false).yt = (fun _ _ => 1) := by
  refine ⟨rfl, fun _ => rfl, fun _ => rfl, ?_, ?_⟩
  all_goals {
    have s1err : (iterFunc ratOps mismatchInst false
        (initSt ratOps mismatchInst.p_num (fun _ _ => 0))).err = |1 - 0| :=
      mismatchInst_iter_err _
    have hc1 : condFunc ratOps DType.float64 50
        (iterFunc ratOps mismatchInst false
          (initSt ratOps mismatchInst.p_num (fun _ _ => 0))) = true := by
      rw [condFunc, s1err]
      have hl : ratOps.ltb (ratOps.ofQ (tolQ DType.float64)) |(1 : ℚ) - 0| = true := by
        show decide ((tolQ DType.float64 : ℚ) < |(1 : ℚ) - 0|) = true
        rw [tolQ_f64, show |(1 : ℚ) - 0| = 1 by norm_num]
        norm_num
      rw [hl, Bool.true_and]
      rfl
    have hyt1 : (iterFunc ratOps mismatchInst false
        (initSt ratOps mismatchInst.p_num (fun _ _ => 0))).yt =
        (fun _ _ => 1 : SeqT ℚ 1 1) := by
      show nextEstimate ratOps mismatchInst false _ = _
      exact mismatchInst_next _
    have s2err : (iterFunc ratOps mismatchInst false
        (iterFunc ratOps mismatchInst false
          (initSt ratOps mismatchInst.p_num (fun _ _ => 0)))).err =
        |1 - (iterFunc ratOps mismatchInst false
          (initSt ratOps mismatchInst.p_num (fun _ _ => 0))).yt 0 0| :=
      mismatchInst_iter_err _
    rw [hyt1, show ((fun _ _ => 1 : SeqT ℚ 1 1)) 0 0 = (1 : ℚ) from rfl,
      show |(1 : ℚ) - 1| = 0 by norm_num] at s2err
    have hrun : deer_iteration_helper ratOps mismatchInst DType.float64
        (fun _ _ => 0) 50 false =
        iterFunc ratOps mismatchInst false
          (iterFunc ratOps mismatchInst false
            (initSt ratOps mismatchInst.p_num (fun _ _ => 0))) := by
      rw [helper_eq_whileLoop, whileLoop_succ,
        if_pos (condFunc_initSt_true DType.float64 49 _ _), whileLoop_succ,
        if_pos hc1]
      exact whileLoop_of_cond_false _ _ 48 _
        (condFunc_err_zero_false DType.float64 50 _ s2err)
    rw [hrun]
    first
      | rfl
      | { show nextEstimate ratOps mismatchInst false _ = _
          exact mismatchInst_next _ }
  }

/-- jnp.linalg.inv over exact rationals: the adjugate formula.  Agrees with
the matrix inverse exactly when the determinant is nonzero; singular input
is a numerical failure in the source (not caught), modelled by the junk
value det⁻¹ = 0 here. -/
def matInv {n : ℕ} (M : Matrix (Fin n) (Fin n) ℚ) : Matrix (Fin n) (Fin n) ℚ :=
  M.det⁻¹ • M.adjugate

lemma matInv_mul {n : ℕ} (M : Matrix (Fin n) (Fin n) ℚ) (h : M.det ≠ 0) :
    M * matInv M = 1 := by
  rw [matInv, Matrix.mul_smul, Matrix.mul_adjugate, smul_smul,
    inv_mul_cancel₀ h, one_smul]

/-- The sequential evaluation of the affine recurrence
y_i = A_i · y_{i-1} + b_i, emitting each new state. -/
def affineScan {n : ℕ} (y0 : Fin n → ℚ) :
    List (Matrix (Fin n) (Fin n) ℚ × (Fin n → ℚ)) → List (Fin n → ℚ)
  | [] => []
  | (A, b) :: rest => (A.mulVec y0 + b) :: affineScan (A.mulVec y0 + b) rest

/-- Modelled from the spec: matmul_recursive (from deer.maths, a module not
present under src) solves the linear recurrence y_i = A_i · y_{i-1} + b_i
for all samples given the base case y_0, returning the full sequence with
y_0 as its first sample (spec §4.4 and the shape comment at
fsolve_idae.py line 145).  The spec's O(log n) associative-composition
evaluation order computes the same sequence as this sequential reference
evaluation, which is what the claims are about. -/
def matmul_recursive {n : ℕ} (As : List (Matrix (Fin n) (Fin n) ℚ))
    (bs : List (Fin n → ℚ)) (y0 : Fin n → ℚ) : List (Fin n → ℚ) :=
  y0 :: affineScan y0 (As.zip bs)

/-- solve_idae_inv_lin (fsolve_idae.py lines 131-146): solves the
block-bidiagonal system M0_i · y_i + M1_i · y_{i-1} = z_i (i ≥ 1) by
forming A_i = -M0_i⁻¹ · M1_i and b_i = M0_i⁻¹ · z_i over samples 1..
(index [1:]) and running the recurrence from the base case y0 supplied in
inv_lin_params. -/
def solve_idae_inv_lin {ny : ℕ} (jacs : List (List (Matrix (Fin ny) (Fin ny) ℚ)))
    (z : List (Fin ny → ℚ)) (inv_lin_params : Fin ny → ℚ) : List (Fin ny → ℚ) :=
  let M0 := jacs.getD 0 []
  let M1 := jacs.getD 1 []
  let M0inv := (M0.drop 1).map matInv
  let M0invM1 := List.zipWith (fun mi m1 => -(mi * m1)) M0inv (M1.drop 1)
  let M0invz := List.zipWith (fun mi zi => mi.mulVec zi) M0inv (z.drop 1)
  matmul_recursive M0invM1 M0invz inv_lin_params

lemma affineScan_length {n : ℕ} :
    ∀ (l : List (Matrix (Fin n) (Fin n) ℚ × (Fin n → ℚ))) (y0 : Fin n → ℚ),
      (affineScan y0 l).length = l.length := by
  intro l
  induction l with
  | nil => intro y0; rfl
  | cons p rest ih =>
    intro y0
    rcases p with ⟨A, b⟩
    simp [affineScan, ih]

/-- Each emitted state of the affine scan is the affine map applied to the
previous state (the base case prepended). -/
lemma affineScan_getD {n : ℕ} :
    ∀ (l : List (Matrix (Fin n) (Fin n) ℚ × (Fin n → ℚ))) (y0 : Fin n → ℚ)
      (i : ℕ), i < l.length →
      (affineScan y0 l).getD i 0 =
        (l.getD i (1, 0)).1.mulVec ((y0 :: affineScan y0 l).getD i 0) +
          (l.getD i (1, 0)).2 := by
  intro l
  induction l with
  | nil => intro y0 i h; simp at h
  | cons p rest ih =>
    intro y0 i h
    rcases p with ⟨A, b⟩
    rcases i with _ | k
    · rfl
    · show (affineScan (A.mulVec y0 + b) rest).getD k 0 = _
      rw [ih (A.mulVec y0 + b) k (by simpa using h)]
      rfl

lemma getD_drop_one {α : Type} (l : List α) (d : α) (k : ℕ) (h : k + 1 < l.length) :
    (l.drop 1).getD k d = l.getD (k + 1) d := by
  rw [List.getD_eq_getElem _ _ (by simp; omega), List.getD_eq_getElem _ _ h]
  rw [List.getElem_drop]
  congr 1
  omega

/-- C7: given the two Jacobian stacks [M0, M1], the result of
solve_idae_inv_lin has n samples, its first sample is the base case y0
from inv_lin_params, and for every i ≥ 1 it satisfies the block-bidiagonal
equation M0_i · y_i + M1_i · y_{i-1} = z_i — provided every M0_i (i ≥ 1)
is invertible, the precondition of the matrix inverse. -/
theorem solve_idae_inv_lin_correct {ny : ℕ} (n : ℕ)
    (M0 M1 : List (Matrix (Fin ny) (Fin ny) ℚ)) (z : List (Fin ny → ℚ))
    (y0 : Fin ny → ℚ) (hn : 1 ≤ n) (hM0 : M0.length = n) (hM1 : M1.length = n)
    (hz : z.length = n) (hinv : ∀ M ∈ M0.drop 1, M.det ≠ 0) :
    (solve_idae_inv_lin [M0, M1] z y0).length = n ∧
    (solve_idae_inv_lin [M0, M1] z y0).getD 0 0 = y0 ∧
    (∀ i : ℕ, 1 ≤ i → i < n →
      (M0.getD i 1).mulVec ((solve_idae_inv_lin [M0, M1] z y0).getD i 0) +
      (M1.getD i 1).mulVec ((solve_idae_inv_lin [M0, M1] z y0).getD (i - 1) 0) =
      z.getD i 0) := by
  have hlenAs : (List.zipWith (fun mi m1 => -(mi * m1))
      ((M0.drop 1).map matInv) (M1.drop 1)).length = n - 1 := by
    rw [List.length_zipWith, List.length_map, List.length_drop, List.length_drop,
      hM0, hM1]
    omega
  have hlenbs : (List.zipWith (fun mi zi => Matrix.mulVec mi zi)
      ((M0.drop 1).map matInv) (z.drop 1)).length = n - 1 := by
    rw [List.length_zipWith, List.length_map, List.length_drop, List.length_drop,
      hM0, hz]
    omega
  have hpairs : ((List.zipWith (fun mi m1 => -(mi * m1))
      ((M0.drop 1).map matInv) (M1.drop 1)).zip
      (List.zipWith (fun mi zi => Matrix.mulVec mi zi)
        ((M0.drop 1).map matInv) (z.drop 1))).length = n - 1 := by
    rw [List.length_zip, hlenAs, hlenbs]
    omega
  have hunfold : solve_idae_inv_lin [M0, M1] z y0 =
      y0 :: affineScan y0
        ((List.zipWith (fun mi m1 => -(mi * m1))
          ((M0.drop 1).map matInv) (M1.drop 1)).zip
         (List.zipWith (fun mi zi => Matrix.mulVec mi zi)
          ((M0.drop 1).map matInv) (z.drop 1))) := rfl
  refine ⟨?_, by rw [hunfold]; rfl, ?_⟩
  · rw [hunfold, List.length_cons, affineScan_length, hpairs]
    omega
  · intro i h1 h2
    obtain ⟨k, rfl⟩ : ∃ k, i = k + 1 := ⟨i - 1, by omega⟩
    have hAs : (List.zipWith (fun mi m1 => -(mi * m1))
        ((M0.drop 1).map matInv) (M1.drop 1)).getD k 1 =
        -(matInv ((M0.drop 1).getD k 1) * (M1.drop 1).getD k 1) := by
      rw [List.getD_eq_getElem _ _ (by rw [hlenAs]; omega),
        List.getD_eq_getElem _ _ (by rw [List.length_drop, hM0]; omega),
        List.getD_eq_getElem _ _ (by rw [List.length_drop, hM1]; omega)]
      rw [List.getElem_zipWith]
      simp
    have hbs : (List.zipWith (fun mi zi => Matrix.mulVec mi zi)
        ((M0.drop 1).map matInv) (z.drop 1)).getD k 0 =
        (matInv ((M0.drop 1).getD k 1)).mulVec ((z.drop 1).getD k 0) := by
      rw [List.getD_eq_getElem _ _ (by rw [hlenbs]; omega),
        List.getD_eq_getElem _ _ (by rw [List.length_drop, hM0]; omega),
        List.getD_eq_getElem _ _ (by rw [List.length_drop, hz]; omega)]
      rw [List.getElem_zipWith]
      simp
    have hzip : (((List.zipWith (fun mi m1 => -(mi * m1))
        ((M0.drop 1).map matInv) (M1.drop 1)).zip
        (List.zipWith (fun mi zi => Matrix.mulVec mi zi)
          ((M0.drop 1).map matInv) (z.drop 1)))).getD k (1, 0) =
        (-(matInv ((M0.drop 1).getD k 1) * (M1.drop 1).getD k 1),
          (matInv ((M0.drop 1).getD k 1)).mulVec ((z.drop 1).getD k 0)) := by
      rw [List.getD_eq_getElem _ _ (by rw [hpairs]; omega),
        List.getElem_zip]
      rw [← hAs, ← hbs,
        List.getD_eq_getElem _ _ (by rw [hlenAs]; omega),
        List.getD_eq_getElem _ _ (by rw [hlenbs]; omega)]
    rw [hunfold]
    rw [show k + 1 - 1 = k from rfl, List.getD_cons_succ]
    rw [affineScan_getD _ y0 k (by rw [hpairs]; omega), hzip]
    set prev := (y0 :: affineScan y0
        ((List.zipWith (fun mi m1 => -(mi * m1))
          ((M0.drop 1).map matInv) (M1.drop 1)).zip
         (List.zipWith (fun mi zi => Matrix.mulVec mi zi)
          ((M0.drop 1).map matInv) (z.drop 1)))).getD k 0 with hprev
    set D0 := (M0.drop 1).getD k 1 with hD0
    set D1 := (M1.drop 1).getD k 1 with hD1
    set Dz := (z.drop 1).getD k 0 with hDz
    have hdet : D0.det ≠ 0 := by
      apply hinv
      rw [hD0, List.getD_eq_getElem _ _ (by rw [List.length_drop, hM0]; omega)]
      exact List.getElem_mem _
    have hM0k : M0.getD (k + 1) 1 = D0 := (getD_drop_one M0 1 k (by omega)).symm
    have hM1k : M1.getD (k + 1) 1 = D1 := (getD_drop_one M1 1 k (by omega)).symm
    have hzk : z.getD (k + 1) 0 = Dz := (getD_drop_one z 0 k (by omega)).symm
    rw [hM0k, hM1k, hzk]
    rw [Matrix.mulVec_add, Matrix.neg_mulVec, Matrix.mulVec_neg,
      Matrix.mulVec_mulVec, Matrix.mulVec_mulVec, ← Matrix.mul_assoc,
      matInv_mul D0 hdet, Matrix.one_mul, Matrix.one_mulVec]
    abel

/-- Witness for the block-bidiagonal solver theorem on a concrete
two-sample scalar system: M0 = [1, 2], M1 = [0, 3], z = [5, 4], y0 = 7. -/
theorem solve_idae_inv_lin_correct_witness :
    (solve_idae_inv_lin [[(!![1] : Matrix (Fin 1) (Fin 1) ℚ), !![2]],
      [!![0], !![3]]] [![5], ![4]] ![7]).length = 2 ∧
    (solve_idae_inv_lin [[(!![1] : Matrix (Fin 1) (Fin 1) ℚ), !![2]],
      [!![0], !![3]]] [![5], ![4]] ![7]).getD 0 0 = ![7] ∧
    (∀ i : ℕ, 1 ≤ i → i < 2 →
      (([(!![1] : Matrix (Fin 1) (Fin 1) ℚ), !![2]]).getD i 1).mulVec
        ((solve_idae_inv_lin [[(!![1] : Matrix (Fin 1) (Fin 1) ℚ), !![2]],
          [!![0], !![3]]] [![5], ![4]] ![7]).getD i 0) +
      (([(!![0] : Matrix (Fin 1) (Fin 1) ℚ), !![3]]).getD i 1).mulVec
        ((solve_idae_inv_lin [[(!![1] : Matrix (Fin 1) (Fin 1) ℚ), !![2]],
          [!![0], !![3]]] [![5], ![4]] ![7]).getD (i - 1) 0) =
      ([![5], ![4]] : List (Fin 1 → ℚ)).getD i 0) :=
  solve_idae_inv_lin_correct 2 [!![1], !![2]] [!![0], !![3]] [![5], ![4]] ![7]
    (by norm_num) rfl rfl rfl
    (by intro M hM
        simp at hM
        subst hM
        simp [Matrix.det_fin_one])

/-- deer_iteration_jvp (deer_iter.py lines 142-187): the custom forward-
mode differentiation rule registered for deer_iteration.  jax.jvp of the
caller-supplied functions is not expressible generically in a shallow
embedding, so the rule takes the two jvp results as oracle arguments:
`dfunc` models jax.jvp(partial(func2, ytparams), (xinput, params),
(grad_xinput, grad_params)) — the tangent of func2 in (xinput, params)
with the shifted sequences held fixed (line 180) — and `dinvlin` models
jax.jvp(partial(inv_lin, gts), (rhs0, inv_lin_params),
(grad_func, grad_inv_lin_params)) (line 185).  The tangents supplied for
shifter_func_params and yinit_guess are accepted in tangent position, as
in the registered rule, but never read — exactly as in the source, whose
grad_shifter_func_params and grad_yinit_guess are unpacked on line 154 and
used nowhere. -/
def deer_iteration_jvp {α : Type} (ops : ScalarOps α) {ns ny : ℕ}
    {X P IL SF : Type} (I : DeerInst α ns ny X P IL SF) (dt : DType)
    (yinit_guess : SeqT α ns ny) (max_iter : ℕ) (clip : Bool)
    (dfunc : List (SeqT α ns ny) → (Fin ns → X) → P → (Fin ns → X) → P →
      SeqT α ns ny)
    (dinvlin : List (MatSeq α ns ny) → SeqT α ns ny → IL → SeqT α ns ny → IL →
      SeqT α ns ny)
    (grad_params : P) (grad_xinput : Fin ns → X) (grad_inv_lin_params : IL)
    (grad_shifter_func_params : SF) (grad_yinit_guess : SeqT α ns ny) :
    SeqT α ns ny × SeqT α ns ny :=
  let st := deer_iteration_helper ops I dt yinit_guess max_iter clip
  let ytparams := I.shifterFunc st.yt I.sfp
  let grad_func := dfunc ytparams I.xinput I.params grad_xinput grad_params
  let rhs0 : SeqT α ns ny := fun _ _ => ops.ofQ 0
  let grad_yt := dinvlin st.gts rhs0 I.ilp grad_func grad_inv_lin_params
  (st.yt, grad_yt)

/-- For an affine func with exact constant Jacobian blocks, the bundle
computed in every iteration is the negated block list, independently of
the estimate. -/
lemma affine_gtsOf {ns ny : ℕ} {X P IL SF : Type}
    (I : DeerInst ℚ ns ny X P IL SF) (A : List (MatT ℚ ny))
    (hjac : ∀ (zs : List (VecT ℚ ny)) (x : X) (θ : P), I.jacfunc zs x θ = A)
    (hshift : ∀ yt : SeqT ℚ ns ny, (I.shifterFunc yt I.sfp).length = A.length) :
    ∀ yt : SeqT ℚ ns ny, gtsOf ratOps I yt =
      A.map (fun a => (fun _ r cc => -(a r cc) : MatSeq ℚ ns ny)) := by
  intro yt
  rw [gtsOf, vmapJacF]
  simp only [hjac, hshift]
  rw [List.map_map]
  rw [show ((fun (g : MatSeq ℚ ns ny) i r cc => ratOps.neg (g i r cc)) ∘
      (fun k (_ : Fin ns) => A.getD k (zeroMat ratOps))) =
      ((fun a => (fun _ r cc => -(a r cc) : MatSeq ℚ ns ny)) ∘
      (fun k => A.getD k (zeroMat ratOps))) from rfl]
  rw [← List.map_map, map_range_getD]

/-- For an affine func with exact Jacobians, the assembled right-hand side
collapses to the affine offset, independently of the estimate. -/
lemma affine_rhsOf {ns ny : ℕ} {X P IL SF : Type}
    (I : DeerInst ℚ ns ny X P IL SF) (A : List (MatT ℚ ny))
    (c : X → P → VecT ℚ ny)
    (hfunc : ∀ (zs : List (VecT ℚ ny)) (x : X) (θ : P) (r : Fin ny),
      zs.length = A.length →
      I.func zs x θ r =
        (List.zipWith (fun (a : MatT ℚ ny) (z : VecT ℚ ny) =>
          ∑ cc, a r cc * z cc) A zs).sum + c x θ r)
    (hjac : ∀ (zs : List (VecT ℚ ny)) (x : X) (θ : P), I.jacfunc zs x θ = A)
    (hshift : ∀ yt : SeqT ℚ ns ny, (I.shifterFunc yt I.sfp).length = A.length) :
    ∀ yt : SeqT ℚ ns ny, rhsOf ratOps I yt =
      fun i r => c (I.xinput i) I.params r := by
  intro yt
  funext i r
  rw [rhsOf_rat_apply]
  rw [hfunc _ _ _ r (by rw [List.length_map, hshift yt])]
  rw [affine_gtsOf I A hjac hshift yt]
  rw [List.zipWith_map_right, List.zipWith_map_left]
  have hneg : (List.zipWith (fun (a : MatT ℚ ny) (t : SeqT ℚ ns ny) =>
      ∑ cc, (fun (_ : Fin ns) r cc => -(a r cc) : MatSeq ℚ ns ny) i r cc * t i cc)
      A (I.shifterFunc yt I.sfp)).sum =
      -(List.zipWith (fun (a : MatT ℚ ny) (t : SeqT ℚ ns ny) =>
        ∑ cc, a r cc * t i cc) A (I.shifterFunc yt I.sfp)).sum := by
    rw [show (fun (a : MatT ℚ ny) (t : SeqT ℚ ns ny) =>
        ∑ cc, (fun (_ : Fin ns) r cc => -(a r cc) : MatSeq ℚ ns ny) i r cc * t i cc) =
        (fun (a : MatT ℚ ny) (t : SeqT ℚ ns ny) =>
          -(∑ cc, a r cc * t i cc)) from ?_]
    · exact zipWith_neg_sum _ A (I.shifterFunc yt I.sfp)
    · funext a t
      rw [← Finset.sum_neg_distrib]
      congr 1
      funext cc
      ring
  rw [hneg]
  ring

/-- For an affine func with exact Jacobians the whole estimate update is
constant: inv_lin applied to the negated blocks and the offset. -/
lemma affine_next {ns ny : ℕ} {X P IL SF : Type}
    (I : DeerInst ℚ ns ny X P IL SF) (A : List (MatT ℚ ny))
    (c : X → P → VecT ℚ ny)
    (hfunc : ∀ (zs : List (VecT ℚ ny)) (x : X) (θ : P) (r : Fin ny),
      zs.length = A.length →
      I.func zs x θ r =
        (List.zipWith (fun (a : MatT ℚ ny) (z : VecT ℚ ny) =>
          ∑ cc, a r cc * z cc) A zs).sum + c x θ r)
    (hjac : ∀ (zs : List (VecT ℚ ny)) (x : X) (θ : P), I.jacfunc zs x θ = A)
    (hshift : ∀ yt : SeqT ℚ ns ny, (I.shifterFunc yt I.sfp).length = A.length) :
    ∀ yt : SeqT ℚ ns ny, nextEstimate ratOps I false yt =
      I.invLin (A.map (fun a => (fun _ r cc => -(a r cc) : MatSeq ℚ ns ny)))
        (fun i r => c (I.xinput i) I.params r) I.ilp := by
  intro yt
  show I.invLin (gtsOf ratOps I yt) (rhsOf ratOps I yt) I.ilp = _
  rw [affine_gtsOf I A hjac hshift yt, affine_rhsOf I A c hfunc hjac hshift yt]

/-- C1 (amended): the differentiation rule returns the loop's output as its
primal.  For an affine func (constant exact Jacobian blocks A, offset
c(x, θ)) and an inv_lin affine in (rhs, inv_lin_params), with the two jvp
oracles computing the exact directional derivatives of those affine maps,
the produced output tangent equals the exact directional derivative of the
solution map inv_lin(-A, c(x, θ), inv_lin_params) under the supplied
perturbations of xinput, params and inv_lin_params.  The tangents supplied
on shifter_func_params and yinit_guess are arbitrary here and do not
influence the output: the rule discards them (for this affine family the
fixed point indeed does not depend on them, and a converged fixed point
never depends on yinit_guess; the counterexample shows the discard is
wrong for shifter_func_params in general). -/
theorem implicit_gradient_rule {ns ny : ℕ} {X P IL SF : Type}
    [Add X] [Add P] [AddCommMonoid IL]
    (I : DeerInst ℚ ns ny X P IL SF) (dt : DType) (max_iter : ℕ)
    (yinit_guess : SeqT ℚ ns ny)
    (A : List (MatT ℚ ny)) (c : X → P → VecT ℚ ny)
    (dfunc : List (SeqT ℚ ns ny) → (Fin ns → X) → P → (Fin ns → X) → P →
      SeqT ℚ ns ny)
    (dinvlin : List (MatSeq ℚ ns ny) → SeqT ℚ ns ny → IL → SeqT ℚ ns ny → IL →
      SeqT ℚ ns ny)
    (grad_params : P) (grad_xinput : Fin ns → X) (grad_inv_lin_params : IL)
    (grad_shifter_func_params : SF) (grad_yinit_guess : SeqT ℚ ns ny)
    (hmax : 2 ≤ max_iter)
    (hfunc : ∀ (zs : List (VecT ℚ ny)) (x : X) (θ : P) (r : Fin ny),
      zs.length = A.length →
      I.func zs x θ r =
        (List.zipWith (fun (a : MatT ℚ ny) (z : VecT ℚ ny) =>
          ∑ cc, a r cc * z cc) A zs).sum + c x θ r)
    (hjac : ∀ (zs : List (VecT ℚ ny)) (x : X) (θ : P), I.jacfunc zs x θ = A)
    (hshift : ∀ yt : SeqT ℚ ns ny, (I.shifterFunc yt I.sfp).length = A.length)
    (hdfunc : ∀ ytp : List (SeqT ℚ ns ny),
      dfunc ytp I.xinput I.params grad_xinput grad_params =
        (fun i r => c (I.xinput i + grad_xinput i) (I.params + grad_params) r) -
        (fun i r => c (I.xinput i) I.params r))
    (hdinvlin : ∀ δ : SeqT ℚ ns ny,
      dinvlin (A.map (fun a => (fun _ r cc => -(a r cc) : MatSeq ℚ ns ny)))
        (fun _ _ => (0 : ℚ)) I.ilp δ grad_inv_lin_params =
        I.invLin (A.map (fun a => (fun _ r cc => -(a r cc) : MatSeq ℚ ns ny)))
          ((fun _ _ => (0 : ℚ)) + δ) (I.ilp + grad_inv_lin_params) -
        I.invLin (A.map (fun a => (fun _ r cc => -(a r cc) : MatSeq ℚ ns ny)))
          (fun _ _ => (0 : ℚ)) I.ilp)
    (haffInv : ∀ (r1 r2 : SeqT ℚ ns ny) (i1 i2 : IL),
      I.invLin (A.map (fun a => (fun _ r cc => -(a r cc) : MatSeq ℚ ns ny)))
          (r1 + r2) (i1 + i2) +
        I.invLin (A.map (fun a => (fun _ r cc => -(a r cc) : MatSeq ℚ ns ny))) 0 0 =
        I.invLin (A.map (fun a => (fun _ r cc => -(a r cc) : MatSeq ℚ ns ny))) r1 i1 +
        I.invLin (A.map (fun a => (fun _ r cc => -(a r cc) : MatSeq ℚ ns ny))) r2 i2) :
    (deer_iteration_jvp ratOps I dt yinit_guess max_iter false dfunc dinvlin
      grad_params grad_xinput grad_inv_lin_params grad_shifter_func_params
      grad_yinit_guess).1 =
      I.invLin (A.map (fun a => (fun _ r cc => -(a r cc) : MatSeq ℚ ns ny)))
        (fun i r => c (I.xinput i) I.params r) I.ilp ∧
    (deer_iteration_jvp ratOps I dt yinit_guess max_iter false dfunc dinvlin
      grad_params grad_xinput grad_inv_lin_params grad_shifter_func_params
      grad_yinit_guess).2 =
      I.invLin (A.map (fun a => (fun _ r cc => -(a r cc) : MatSeq ℚ ns ny)))
        (fun i r => c (I.xinput i + grad_xinput i) (I.params + grad_params) r)
        (I.ilp + grad_inv_lin_params) -
      I.invLin (A.map (fun a => (fun _ r cc => -(a r cc) : MatSeq ℚ ns ny)))
        (fun i r => c (I.xinput i) I.params r) I.ilp := by
  have hK := affine_next I A c hfunc hjac hshift
  have hG := affine_gtsOf I A hjac hshift
  have run := constant_step_run I dt false max_iter yinit_guess
    (I.invLin (A.map (fun a => (fun _ r cc => -(a r cc) : MatSeq ℚ ns ny)))
      (fun i r => c (I.xinput i) I.params r) I.ilp)
    (A.map (fun a => (fun _ r cc => -(a r cc) : MatSeq ℚ ns ny)))
    hmax hK hG
  have hjvp : deer_iteration_jvp ratOps I dt yinit_guess max_iter false dfunc
      dinvlin grad_params grad_xinput grad_inv_lin_params
      grad_shifter_func_params grad_yinit_guess =
      ((deer_iteration_helper ratOps I dt yinit_guess max_iter false).yt,
        dinvlin (deer_iteration_helper ratOps I dt yinit_guess max_iter false).gts
          (fun _ _ => (0 : ℚ)) I.ilp
          (dfunc (I.shifterFunc
              (deer_iteration_helper ratOps I dt yinit_guess max_iter false).yt
              I.sfp)
            I.xinput I.params grad_xinput grad_params)
          grad_inv_lin_params) := rfl
  rw [hjvp]
  refine ⟨run.1, ?_⟩
  show dinvlin _ _ _ _ _ = _
  rw [run.2.1, hdfunc, hdinvlin]
  have hzero : ((fun _ _ => (0 : ℚ)) : SeqT ℚ ns ny) = 0 := rfl
  rw [hzero, zero_add]
  set f := fun (r : SeqT ℚ ns ny) (i : IL) =>
    I.invLin (A.map (fun a => (fun _ r cc => -(a r cc) : MatSeq ℚ ns ny))) r i
    with hf
  set cb := (fun i r => c (I.xinput i) I.params r : SeqT ℚ ns ny) with hcb
  set cp := (fun i r =>
    c (I.xinput i + grad_xinput i) (I.params + grad_params) r : SeqT ℚ ns ny)
    with hcp
  show f (cp - cb) (I.ilp + grad_inv_lin_params) - f 0 I.ilp =
    f cp (I.ilp + grad_inv_lin_params) - f cb I.ilp
  have law1 := haffInv cb (cp - cb) I.ilp grad_inv_lin_params
  have law2 := haffInv (cp - cb) 0 grad_inv_lin_params I.ilp
  rw [show cb + (cp - cb) = cp by abel] at law1
  rw [show (cp - cb) + 0 = cp - cb by abel,
    add_comm grad_inv_lin_params I.ilp] at law2
  show f (cp - cb) (I.ilp + grad_inv_lin_params) - f 0 I.ilp =
    f cp (I.ilp + grad_inv_lin_params) - f cb I.ilp
  have law1f : f cp (I.ilp + grad_inv_lin_params) + f 0 0 =
      f cb I.ilp + f (cp - cb) grad_inv_lin_params := law1
  have law2f : f (cp - cb) (I.ilp + grad_inv_lin_params) + f 0 0 =
      f (cp - cb) grad_inv_lin_params + f 0 I.ilp := law2
  linear_combination law2f - law1f

/-- Affine collaborator set with a differentiable parameter: func(z, x, θ)
= 2z + θ with exact Jacobian block 2, identity-singleton shifter, and
inv_lin solving 5y + g·y = rhs (affine — indeed linear — in its rhs). -/
def affParamInst : DeerInst ℚ 1 1 Unit ℚ Unit Unit where
  invLin := fun gs rhs _ => fun i j =>
    rhs i j / (5 + gs.getD 0 (zeroMatSeq ratOps) i j j)
  func := fun zs _ θ => fun _ => 2 * zs.getD 0 (fun _ => 0) 0 + θ
  jacfunc := fun _ _ _ => [fun _ _ => 2]
  shifterFunc := fun y _ => [y]
  p_num := 1
  params := 3
  xinput := fun _ => ()
  ilp := ()
  sfp := ()

/-- Witness for the implicit-gradient-rule theorem: perturbing the scalar
parameter θ = 3 by tangent 1 in the affine family 2z + θ. -/
theorem implicit_gradient_rule_witness :
    (deer_iteration_jvp ratOps affParamInst DType.float64 (fun _ _ => 0) 30 false
      (fun _ _ _ _ dθ => fun _ _ => dθ)
      (fun gs _ _ drhs _ => fun i j =>
        drhs i j / (5 + gs.getD 0 (zeroMatSeq ratOps) i j j))
      1 (fun _ => ()) () () (fun _ _ => 0)).1 =
      affParamInst.invLin (([fun _ _ => 2] : List (MatT ℚ 1)).map
        (fun a => (fun _ r cc => -(a r cc) : MatSeq ℚ 1 1)))
        (fun _ _ => (3 : ℚ)) affParamInst.ilp ∧
    (deer_iteration_jvp ratOps affParamInst DType.float64 (fun _ _ => 0) 30 false
      (fun _ _ _ _ dθ => fun _ _ => dθ)
      (fun gs _ _ drhs _ => fun i j =>
        drhs i j / (5 + gs.getD 0 (zeroMatSeq ratOps) i j j))
      1 (fun _ => ()) () () (fun _ _ => 0)).2 =
      affParamInst.invLin (([fun _ _ => 2] : List (MatT ℚ 1)).map
        (fun a => (fun _ r cc => -(a r cc) : MatSeq ℚ 1 1)))
        (fun _ _ => (3 : ℚ) + 1) (affParamInst.ilp + ()) -
      affParamInst.invLin (([fun _ _ => 2] : List (MatT ℚ 1)).map
        (fun a => (fun _ r cc => -(a r cc) : MatSeq ℚ 1 1)))
        (fun _ _ => (3 : ℚ)) affParamInst.ilp := by
  refine implicit_gradient_rule affParamInst DType.float64 30 (fun _ _ => 0)
    [fun _ _ => 2] (fun _ θ => fun _ => θ)
    (fun _ _ _ _ dθ => fun _ _ => dθ)
    (fun gs _ _ drhs _ => fun i j =>
      drhs i j / (5 + gs.getD 0 (zeroMatSeq ratOps) i j j))
    1 (fun _ => ()) () () (fun _ _ => 0) (by norm_num) ?_ ?_ ?_ ?_ ?_ ?_
  · intro zs x θ r h
    rcases zs with _ | ⟨z, zs'⟩
    · simp at h
    · rcases zs' with _ | ⟨w, t⟩
      · show 2 * z 0 + θ = _
        simp [Fin.sum_univ_one]
      · simp at h
  · intro zs x θ
    rfl
  · intro yt
    rfl
  · intro ytp
    funext i r
    simp [Pi.sub_apply]
  · intro δ
    funext i j
    simp [affParamInst, Pi.sub_apply, Pi.add_apply, zeroMatSeq, zeroMat, ratOps]
  · intro r1 r2 i1 i2
    funext i j
    simp [affParamInst, Pi.add_apply, Pi.zero_apply, zeroMatSeq, zeroMat, ratOps]
    ring

/-- A nonlinear collaborator set whose fixed point genuinely depends on the
shifter parameter: func(z) = z² with exact forward-mode Jacobian 2z, the
shifter y ↦ [y + s] with scalar parameter s (here s = 3/2), and an inv_lin
solving 4y + g·y = rhs.  The loop's iteration map is
y ↦ -(y + s)² / (4 - 2(y + s)), whose fixed points satisfy
y² = 4y + s². -/
def sqrtInst : DeerInst ℚ 1 1 Unit Unit Unit ℚ where
  invLin := fun gs rhs _ => fun i j =>
    rhs i j / (4 + gs.getD 0 (zeroMatSeq ratOps) i j j)
  func := fun zs _ _ => fun _ => zs.getD 0 (fun _ => 0) 0 ^ 2
  jacfunc := fun zs _ _ => [fun _ _ => 2 * zs.getD 0 (fun _ => 0) 0]
  shifterFunc := fun y s => [fun i j => y i j + s]
  p_num := 1
  params := ()
  xinput := fun _ => ()
  ilp := ()
  sfp := 3 / 2

/-- At the estimate 9/2 the iteration map of the nonlinear instance is
stationary: (9/2 + 3/2) = 6, rhs = 36 - 2·6·6 = -36, bundle = -12, and
-36 / (4 - 12) = 9/2. -/
lemma sqrtInst_next_fix :
    nextEstimate ratOps sqrtInst false (fun _ _ => 9 / 2) = fun _ _ => 9 / 2 := by
  funext i j
  show sqrtInst.invLin (gtsOf ratOps sqrtInst (fun _ _ => 9 / 2))
    (rhsOf ratOps sqrtInst (fun _ _ => 9 / 2)) () i j = 9 / 2
  have hg : gtsOf ratOps sqrtInst (fun _ _ => 9 / 2) = [fun _ _ _ => -12] := by
    simp [gtsOf, vmapJacF, sqrtInst, ratOps, List.range_succ, List.range_zero,
      Function.comp]
    funext i r c
    norm_num
  have hr : rhsOf ratOps sqrtInst (fun _ _ => 9 / 2) = fun _ _ => -36 := by
    funext i2 j2
    simp [rhsOf, gtsOf, vmapJacF, vmapF, seqAdd, seqSum, einsumO, matVecO,
      sumO, sqrtInst, ratOps, zeroMat, List.range_succ, List.range_zero,
      List.finRange_succ, Function.comp]
    norm_num
  rw [hg, hr]
  show (-36 : ℚ) / (4 + -12) = 9 / 2
  norm_num

/-- The branch of fixed points of the nonlinear instance's iteration map,
as a real function of the shifter parameter s. -/
noncomputable def sqrtBranch : ℝ → ℝ := fun s => 2 + Real.sqrt (4 + s ^ 2)

/-- C1 counterexample.  At shifter parameter s = 3/2 the loop converges
exactly (error 0 after one iteration) to the constant output 9/2, which is
the fixed point sqrtBranch(3/2) of the iteration map; the fixed-point
branch satisfies y(s)² = 4·y(s) + s² for every s and has derivative
3/5 ≠ 0 in the shifter-parameter direction at s = 3/2; yet the
differentiation rule, fed the exact jvp oracles of func (zero tangent: it
ignores x and θ) and of inv_lin (linear in rhs), returns the output
tangent 0 for the shifter-parameter tangent 1 — the rule drops the
grad_shifter_func_params tangent, so the claimed correct nonzero output
tangent is not produced. -/
theorem gradient_rule_cex :
    (deer_iteration_helper ratOps sqrtInst DType.float64 (fun _ _ => 9 / 2) 100
      false).err = 0 ∧
    (deer_iteration_helper ratOps sqrtInst DType.float64 (fun _ _ => 9 / 2) 100
      false).iiter = 1 ∧
    (deer_iteration_helper ratOps sqrtInst DType.float64 (fun _ _ => 9 / 2) 100
      false).yt = (fun _ _ => 9 / 2) ∧
    (∀ s : ℝ, sqrtBranch s ^ 2 = 4 * sqrtBranch s + s ^ 2) ∧
    sqrtBranch (3 / 2) = 9 / 2 ∧
    HasDerivAt sqrtBranch (3 / 5) (3 / 2) ∧
    (3 / 5 : ℝ) ≠ 0 ∧
    (deer_iteration_jvp ratOps sqrtInst DType.float64 (fun _ _ => 9 / 2) 100
      false
      (fun _ _ _ _ _ => fun _ _ => 0)
      (fun gs _ _ drhs _ => fun i j =>
        drhs i j / (4 + gs.getD 0 (zeroMatSeq ratOps) i j j))
      () (fun _ => ()) () 1 (fun _ _ => 0)).2 = (fun _ _ => 0) := by
  have hsq : Real.sqrt (4 + (3 / 2 : ℝ) ^ 2) = 5 / 2 := by
    rw [show (4 + (3 / 2 : ℝ) ^ 2) = (5 / 2) ^ 2 by norm_num,
      Real.sqrt_sq (by norm_num : (0 : ℝ) ≤ 5 / 2)]
  -- the exact one-iteration convergence
  have herr1 : (iterFunc ratOps sqrtInst false
      (initSt ratOps sqrtInst.p_num (fun _ _ => 9 / 2))).err = 0 := by
    show maxAbsSeq ratOps (seqSub ratOps
      (nextEstimate ratOps sqrtInst false (fun _ _ => 9 / 2))
      (fun _ _ => 9 / 2)) = 0
    rw [sqrtInst_next_fix]
    exact maxAbsSeq_self_sub _
  have hrun : deer_iteration_helper ratOps sqrtInst DType.float64
      (fun _ _ => 9 / 2) 100 false =
      iterFunc ratOps sqrtInst false
        (initSt ratOps sqrtInst.p_num (fun _ _ => 9 / 2)) := by
    rw [helper_eq_whileLoop, whileLoop_succ,
      if_pos (condFunc_initSt_true DType.float64 99 _ _)]
    exact whileLoop_of_cond_false _ _ 99 _
      (condFunc_err_zero_false DType.float64 100 _ herr1)
  refine ⟨by rw [hrun]; exact herr1, by rw [hrun]; rfl, ?_, ?_, ?_, ?_,
    by norm_num, ?_⟩
  · rw [hrun]
    show nextEstimate ratOps sqrtInst false _ = _
    exact sqrtInst_next_fix
  · intro s
    have hD : (0 : ℝ) ≤ 4 + s ^ 2 := by positivity
    have h := Real.sq_sqrt hD
    rw [sqrtBranch]
    nlinarith [h]
  · rw [sqrtBranch, hsq]
    norm_num
  · have hinner : HasDerivAt (fun s : ℝ => 4 + s ^ 2) 3 (3 / 2) := by
      have hpow : HasDerivAt (fun s : ℝ => s ^ 2) (2 * (3 / 2 : ℝ) ^ 1) (3 / 2) :=
        hasDerivAt_pow 2 (3 / 2 : ℝ)
      have := hpow.const_add (4 : ℝ)
      convert this using 1
      norm_num
    have hsqrt : HasDerivAt Real.sqrt (1 / (2 * Real.sqrt (4 + (3 / 2 : ℝ) ^ 2)))
        (4 + (3 / 2 : ℝ) ^ 2) :=
      Real.hasDerivAt_sqrt (by norm_num)
    have hcomp := hsqrt.comp (3 / 2 : ℝ) hinner
    have hval : (1 / (2 * Real.sqrt (4 + (3 / 2 : ℝ) ^ 2))) * 3 = 3 / 5 := by
      rw [hsq]
      norm_num
    rw [hval] at hcomp
    have := hcomp.const_add (2 : ℝ)
    convert this using 1
  · funext i j
    show (0 : ℚ) / _ = 0
    rw [zero_div]
